import Mathlib

/-!
# Budget tracker (`script.js`): a shallow embedding and its verified properties

The script keeps a ledger of income/expense records in a closure variable
`transactions`, persists it as a JSON text inside `document.cookie`, and renders
a filtered list and three running totals.

Conventions of the embedding.

* JavaScript strings are lists of characters (`Str`).
* JavaScript numbers are the type `JSNumber`: `NaN`, the two infinities and the
  finite values, each with its exact rational value.  A text read as a number
  (`parseFloat`, `parseInt`, `JSON.parse`) is rounded to the nearest IEEE-754
  double, and a number is printed with the shortest digits that read back
  (`Number::toString`).  Sums and differences of finite values are exact, and
  the two zeros are one value.
* The host functions the script calls (`String.prototype.trim`, `split`,
  `startsWith`, `substring`, `parseInt`, `parseFloat`, `JSON.parse`,
  `JSON.stringify`) are written out as executable definitions following
  ECMA-262 / ECMA-404.
* The closure state of the `DOMContentLoaded` handler is the record `App`; each
  handler is a function `App → App`.  `Date.now()` and the text of
  `expiryDate.toUTCString()` are inputs of the handlers that read them.
-/

namespace BudgetTracker

/-! ## Strings -/

/-- JavaScript string values. -/
abbrev Str := List Char

/-- The characters that `String.prototype.trim` strips: ECMA-262 `WhiteSpace`
and `LineTerminator`. -/
def isWhiteSpace (c : Char) : Bool :=
  let n := c.toNat
  n == 9 || n == 10 || n == 11 || n == 12 || n == 13 || n == 32 || n == 160 ||
  n == 5760 || (8192 ≤ n && n ≤ 8202) || n == 8232 || n == 8233 || n == 8239 ||
  n == 8287 || n == 12288 || n == 65279

/-- The method `String.prototype.trim`. -/
def trim (s : Str) : Str :=
  ((s.dropWhile isWhiteSpace).reverse.dropWhile isWhiteSpace).reverse

/-- The method `String.prototype.split` with a one-character separator: the pieces between
the occurrences of `sep`; always at least one piece. -/
def split (sep : Char) : Str → List Str
  | [] => [[]]
  | c :: cs =>
    if c = sep then [] :: split sep cs
    else
      match split sep cs with
      | [] => [[c]]
      | piece :: pieces => (c :: piece) :: pieces

/-- The method `String.prototype.startsWith`. -/
def startsWith (s pre : Str) : Bool := pre.isPrefixOf s

/-- The method `String.prototype.substring` with a start index only. -/
def substring (s : Str) (start : Nat) : Str := s.drop start

/-! ## Decimal digits -/

/-- Value of a decimal digit character. -/
def digitVal (c : Char) : Option Nat :=
  if 48 ≤ c.toNat ∧ c.toNat ≤ 57 then some (c.toNat - 48) else none

/-- The character of a decimal digit. -/
def digitChar (d : Nat) : Char := Char.ofNat (48 + d)

/-- Longest run of decimal digits at the head of the text, and what follows. -/
def takeDigits : Str → List Nat × Str
  | [] => ([], [])
  | c :: cs =>
    match digitVal c with
    | some d => ((takeDigits cs).1.cons d, (takeDigits cs).2)
    | none => ([], c :: cs)

/-- Value of a big-endian list of decimal digits. -/
def ofDigits (ds : List Nat) : Nat := ds.foldl (fun acc d => 10 * acc + d) 0

/-- Decimal digits of a natural number, most significant first, pushed in front
of `acc`. -/
def natDigitsAux : Nat → Nat → Str → Str
  | 0, _, acc => acc
  | fuel + 1, n, acc =>
    if n / 10 = 0 then digitChar (n % 10) :: acc
    else natDigitsAux fuel (n / 10) (digitChar (n % 10) :: acc)

/-- Decimal text of a natural number. -/
def natToString (n : Nat) : Str := natDigitsAux (n + 1) n []

/-! ## Numbers -/

/-- JavaScript Number values: `NaN`, the two infinities, and the finite values
with their exact value (the sign of zero is not kept). -/
inductive JSNumber where
  | nan
  | posInf
  | negInf
  | fin (q : ℚ)
  deriving DecidableEq

namespace JSNumber

/-- Unary minus. -/
def neg : JSNumber → JSNumber
  | nan => nan
  | posInf => negInf
  | negInf => posInf
  | fin q => fin (-q)

/-- The sum `a + b`, exact on finite values. -/
def add : JSNumber → JSNumber → JSNumber
  | nan, _ => nan
  | _, nan => nan
  | posInf, negInf => nan
  | negInf, posInf => nan
  | posInf, _ => posInf
  | _, posInf => posInf
  | negInf, _ => negInf
  | _, negInf => negInf
  | fin a, fin b => fin (a + b)

/-- The comparison `a < b`; false when either side is `NaN`. -/
def lt : JSNumber → JSNumber → Bool
  | nan, _ => false
  | _, nan => false
  | posInf, _ => false
  | _, negInf => false
  | negInf, _ => true
  | _, posInf => true
  | fin a, fin b => decide (a < b)

/-- The comparison `a <= b`; false when either side is `NaN`. -/
def le : JSNumber → JSNumber → Bool
  | nan, _ => false
  | _, nan => false
  | negInf, _ => true
  | _, posInf => true
  | posInf, _ => false
  | _, negInf => false
  | fin a, fin b => decide (a ≤ b)

/-- The test `isNaN`. -/
def isNaN : JSNumber → Bool
  | nan => true
  | _ => false

instance : Zero JSNumber := ⟨fin 0⟩

instance (n : Nat) : OfNat JSNumber n := ⟨fin n⟩

instance : Neg JSNumber := ⟨neg⟩

instance : Add JSNumber := ⟨add⟩

instance : Sub JSNumber := ⟨fun a b => add a (neg b)⟩

instance : LT JSNumber := ⟨fun a b => lt a b = true⟩

instance : LE JSNumber := ⟨fun a b => le a b = true⟩

instance (a b : JSNumber) : Decidable (a < b) := inferInstanceAs (Decidable (lt a b = true))

instance (a b : JSNumber) : Decidable (a ≤ b) := inferInstanceAs (Decidable (le a b = true))

end JSNumber

/-- Number of binary digits of `n`, by halving, in at most `fuel` steps. -/
def bitLengthAux : Nat → Nat → Nat
  | 0, _ => 0
  | fuel + 1, n => if n = 0 then 0 else bitLengthAux fuel (n / 2) + 1

/-- Number of binary digits of `n`. -/
def bitLength (n : Nat) : Nat := bitLengthAux n n

/-- The double nearest to the positive number `num / den`, ties to the even
mantissa: 53 significant bits, subnormals below `2 ^ -1022`, `Infinity` from
`2 ^ 1024` on. -/
def roundPositive (num den : Nat) : JSNumber :=
  let e0 : Int := (bitLength num : Int) - (bitLength den : Int)
  let atLeast : Bool :=
    if 0 ≤ e0 then decide (den * 2 ^ e0.toNat ≤ num) else decide (den ≤ num * 2 ^ (-e0).toNat)
  let e : Int := if atLeast then e0 else e0 - 1
  let p : Int := max e (-1022) - 52
  let scaledNum : Nat := if 0 ≤ p then num else num * 2 ^ (-p).toNat
  let scaledDen : Nat := if 0 ≤ p then den * 2 ^ p.toNat else den
  let q := scaledNum / scaledDen
  let r := scaledNum % scaledDen
  let n := if scaledDen < 2 * r ∨ (2 * r = scaledDen ∧ q % 2 = 1) then q + 1 else q
  if 0 ≤ p then
    if 2 ^ 1024 ≤ n * 2 ^ p.toNat then JSNumber.posInf
    else JSNumber.fin ((n * 2 ^ p.toNat : Nat) : ℚ)
  else JSNumber.fin (mkRat n (2 ^ (-p).toNat))

/-- The double nearest to `m × 10 ^ e`.  The two shortcuts agree with the
rounding: from `10 ^ 310` on every number rounds to `Infinity`, and below
`10 ^ -330` every number rounds to zero. -/
def roundDecimal (m : Nat) (e : Int) : JSNumber :=
  if m = 0 then JSNumber.fin 0
  else if 310 ≤ e then JSNumber.posInf
  else if e + ((natToString m).length : Int) ≤ -330 then JSNumber.fin 0
  else if 0 ≤ e then roundPositive (m * 10 ^ e.toNat) 1
  else roundPositive m (10 ^ (-e).toNat)

/-- The least `j` from the given one on with `den ≤ num × 10 ^ j`, in at most
`fuel` steps. -/
def leastShift (num den : Nat) : Nat → Nat → Nat
  | 0, j => j
  | fuel + 1, j => if den ≤ num * 10 ^ j then j else leastShift num den fuel (j + 1)

/-- The decimal exponent of the positive number `num / den`: the `n` with
`10 ^ (n - 1) ≤ num / den < 10 ^ n`. -/
def decimalExponent (num den : Nat) : Int :=
  if den ≤ num then ((natToString (num / den)).length : Int)
  else 1 - (leastShift num den (natToString den).length 1 : Int)

/-- The integer part of `num / den / 10 ^ x`. -/
def floorScaled (num den : Nat) (x : Int) : Nat :=
  if 0 ≤ x then num / (den * 10 ^ x.toNat) else num * 10 ^ (-x).toNat / den

/-- Of the two integers `lo` and `lo + 1` around `q / 10 ^ x`, the one `s` for
which `s × 10 ^ x` reads back as the double `q`; when both do, the closer one,
the even one on a tie; `none` when neither does. -/
def pickCandidate (q : ℚ) (x : Int) (lo : Nat) : Option Nat :=
  let okLo : Bool := decide (roundDecimal lo x = JSNumber.fin q)
  let okHi : Bool := decide (roundDecimal (lo + 1) x = JSNumber.fin q)
  let twice : Nat := 2 * q.num.natAbs * (if x < 0 then 10 ^ (-x).toNat else 1)
  let middle : Nat := (2 * lo + 1) * q.den * (if 0 ≤ x then 10 ^ x.toNat else 1)
  match okLo, okHi with
  | true, false => some lo
  | false, true => some (lo + 1)
  | false, false => none
  | true, true =>
    if twice < middle then some lo
    else if middle < twice then some (lo + 1)
    else if lo % 2 = 0 then some lo else some (lo + 1)

/-- The shortest digit string that reads back as the positive double `q`: tries
`k`, `k + 1`, ... digits in turn, `fuel` times, and returns the digits as a
number together with the number of digits tried. -/
def shortestAux (q : ℚ) (n0 : Int) : Nat → Nat → Option (Nat × Nat)
  | 0, _ => none
  | fuel + 1, k =>
    match pickCandidate q (n0 - (k : Int)) (floorScaled q.num.natAbs q.den (n0 - (k : Int))) with
    | some s => some (s, k)
    | none => shortestAux q n0 fuel (k + 1)

/-- Drops the zeros at the end of a digit string. -/
def stripZeros (ds : Str) : Str := (ds.reverse.dropWhile (fun c => c = '0')).reverse

/-- The digits `s` and the exponent `n` of `Number::toString` for the positive
double `q`: `q` is `0.s × 10 ^ n` and `s` is as short as reading back allows (at
most 17 digits are ever needed; the search goes on to 21, so its `none` case is
not reached for a double). -/
def shortestDigits (q : ℚ) : Str × Int :=
  let n0 := decimalExponent q.num.natAbs q.den
  match shortestAux q n0 21 1 with
  | some (s, k) =>
    (stripZeros (natToString s), n0 + ((natToString s).length : Int) - (k : Int))
  | none => (stripZeros (natToString (floorScaled q.num.natAbs q.den (n0 - 21))), n0)

/-- The text of `Number::toString` from the digits and the exponent: plain
digits with zeros or a point for exponents from -5 to 21, exponent notation
otherwise. -/
def formatDigits (ds : Str) (n : Int) : Str :=
  let k : Int := (ds.length : Int)
  if k ≤ n ∧ n ≤ 21 then ds ++ List.replicate (n - k).toNat '0'
  else if 0 < n ∧ n ≤ 21 then ds.take n.toNat ++ '.' :: ds.drop n.toNat
  else if -6 < n ∧ n ≤ 0 then '0' :: '.' :: (List.replicate (-n).toNat '0' ++ ds)
  else
    let mantissa : Str :=
      match ds with
      | [d] => [d]
      | d :: rest => d :: '.' :: rest
      | [] => []
    mantissa ++ 'e' :: (if n - 1 < 0 then '-' else '+') :: natToString (n - 1).natAbs

/-- The operation `Number::toString` (radix 10): the text of a number in a
template literal and in `JSON.stringify`. -/
def numberToString : JSNumber → Str
  | JSNumber.nan => "NaN".toList
  | JSNumber.posInf => "Infinity".toList
  | JSNumber.negInf => "-Infinity".toList
  | JSNumber.fin q =>
    if q = 0 then ['0']
    else if q < 0 then '-' :: formatDigits (shortestDigits (-q)).1 (shortestDigits (-q)).2
    else formatDigits (shortestDigits q).1 (shortestDigits q).2

/-! ## JSON values, `JSON.parse` and `JSON.stringify` -/

/-- The values `JSON.parse` can return. -/
inductive JVal where
  | null
  | bool (b : Bool)
  | num (x : JSNumber)
  | str (s : Str)
  | arr (items : List JVal)
  | obj (members : List (Str × JVal))

/-- The exceptions modelled: the `SyntaxError` thrown by `JSON.parse`, and the
`TypeError` of a call to a method the receiver does not have. -/
inductive JSError where
  | syntaxError
  | typeError
  deriving DecidableEq

/-- JSON insignificant whitespace: space, tab, line feed, carriage return. -/
def isJSONSpace (c : Char) : Bool :=
  c.toNat == 32 || c.toNat == 9 || c.toNat == 10 || c.toNat == 13

/-- Drops leading JSON whitespace. -/
def skipWs (cs : Str) : Str := cs.dropWhile isJSONSpace

/-- Value of a hexadecimal digit character. -/
def hexVal (c : Char) : Option Nat :=
  let n := c.toNat
  if 48 ≤ n ∧ n ≤ 57 then some (n - 48)
  else if 97 ≤ n ∧ n ≤ 102 then some (n - 87)
  else if 65 ≤ n ∧ n ≤ 70 then some (n - 55)
  else none

/-- Value of the four hexadecimal digits of a `\uXXXX` escape. -/
def hex4 (a b c d : Char) : Option Nat :=
  match hexVal a, hexVal b, hexVal c, hexVal d with
  | some x, some y, some z, some w => some (((x * 16 + y) * 16 + z) * 16 + w)
  | _, _, _, _ => none

/-- The body of a JSON string after its opening quote, as UTF-16 code units /
code points, up to and without the closing quote. -/
def parseStringUnits : Str → Option (List Nat × Str)
  | [] => none
  | '\"' :: rest => some ([], rest)
  | '\\' :: 'u' :: a :: b :: c :: d :: rest =>
    match hex4 a b c d, parseStringUnits rest with
    | some u, some (us, r) => some (u :: us, r)
    | _, _ => none
  | '\\' :: e :: rest =>
    let unit : Option Nat :=
      if e = '\"' then some 34 else if e = '\\' then some 92 else if e = '/' then some 47
      else if e = 'b' then some 8 else if e = 'f' then some 12 else if e = 'n' then some 10
      else if e = 'r' then some 13 else if e = 't' then some 9 else none
    match unit, parseStringUnits rest with
    | some u, some (us, r) => some (u :: us, r)
    | _, _ => none
  | c :: rest =>
    if c.toNat < 32 then none
    else
      match parseStringUnits rest with
      | some (us, r) => some (c.toNat :: us, r)
      | none => none

/-- Characters of a sequence of code units: a high surrogate followed by a low
surrogate is one character; a surrogate on its own, which a list of characters
cannot hold, becomes U+FFFD. -/
def decodeUnits : List Nat → Str
  | [] => []
  | [u] => [if 55296 ≤ u ∧ u ≤ 57343 then Char.ofNat 65533 else Char.ofNat u]
  | u :: v :: rest =>
    if 55296 ≤ u ∧ u ≤ 56319 ∧ 56320 ≤ v ∧ v ≤ 57343 then
      Char.ofNat (65536 + (u - 55296) * 1024 + (v - 56320)) :: decodeUnits rest
    else
      (if 55296 ≤ u ∧ u ≤ 57343 then Char.ofNat 65533 else Char.ofNat u) ::
        decodeUnits (v :: rest)

/-- A JSON string after its opening quote. -/
def parseString (cs : Str) : Option (Str × Str) :=
  match parseStringUnits cs with
  | some (us, r) => some (decodeUnits us, r)
  | none => none

/-- The integer part of a JSON number: `0`, or a digit run not starting with `0`. -/
def parseIntPart (cs : Str) : Option (List Nat × Str) :=
  match cs with
  | [] => none
  | c :: rest =>
    if c = '0' then some ([0], rest)
    else
      match takeDigits (c :: rest) with
      | ([], _) => none
      | (ds, r) => some (ds, r)

/-- The optional fraction of a JSON number: a point and at least one digit. -/
def parseFracPart (cs : Str) : Option (List Nat × Str) :=
  match cs with
  | '.' :: rest =>
    match takeDigits rest with
    | ([], _) => none
    | (ds, r) => some (ds, r)
  | _ => some ([], cs)

/-- The optional exponent of a JSON number: `e` or `E`, an optional sign and at
least one digit. -/
def parseExpPart (cs : Str) : Option (Int × Str) :=
  match cs with
  | c :: rest =>
    if c = 'e' ∨ c = 'E' then
      let signed : Bool × Str :=
        match rest with
        | '-' :: r => (true, r)
        | '+' :: r => (false, r)
        | r => (false, r)
      match takeDigits signed.2 with
      | ([], _) => none
      | (ds, r) => some (if signed.1 then - (ofDigits ds : Int) else (ofDigits ds : Int), r)
    else some (0, cs)
  | [] => some (0, [])

/-- An optional minus at the head of the text: whether it is there, and what
follows it. -/
def takeMinus : Str → Bool × Str
  | '-' :: r => (true, r)
  | r => (false, r)

/-- A JSON number: the double nearest to the decimal value of the literal. -/
def parseNumber (cs : Str) : Option (JSNumber × Str) :=
  let signed := takeMinus cs
  match parseIntPart signed.2 with
  | none => none
  | some (ip, r1) =>
    match parseFracPart r1 with
    | none => none
    | some (fp, r2) =>
      match parseExpPart r2 with
      | none => none
      | some (e, r3) =>
        let x := roundDecimal (ofDigits (ip ++ fp)) (e - (fp.length : Int))
        some (if signed.1 then -x else x, r3)

/-- The value of a key that is an array index: a decimal numeral without a
leading zero, below `2 ^ 32 - 1`. -/
def arrayIndex (key : Str) : Option Nat :=
  match takeDigits key with
  | (d :: ds, []) =>
    if (d = 0 ∧ ds ≠ []) ∨ 2 ^ 32 - 1 ≤ ofDigits (d :: ds) then none
    else some (ofDigits (d :: ds))
  | _ => none

/-- Defines the property `key` on an object whose members are in enumeration
order: a key already there keeps its place and takes the new value; a new array
index goes among the array indices, in ascending order, ahead of every other
key; any other new key goes last. -/
def setMember (key : Str) (value : JVal) : List (Str × JVal) → List (Str × JVal)
  | [] => [(key, value)]
  | (k, v) :: rest =>
    if k = key then (key, value) :: rest
    else
      match arrayIndex key, arrayIndex k with
      | some i, some j =>
        if i < j then (key, value) :: (k, v) :: rest else (k, v) :: setMember key value rest
      | some _, none => (key, value) :: (k, v) :: rest
      | none, _ => (k, v) :: setMember key value rest

mutual
/-- A JSON value at the head of the text (recursive descent, `fuel` bounds the
number of nested calls).  The members of an object are defined one by one in
source order. -/
def parseValue : Nat → Str → Option (JVal × Str)
  | 0, _ => none
  | fuel + 1, cs =>
    match skipWs cs with
    | [] => none
    | '[' :: r =>
      match skipWs r with
      | ']' :: r1 => some (JVal.arr [], r1)
      | r1 =>
        match parseElements fuel r1 with
        | some (vs, r2) => some (JVal.arr vs, r2)
        | none => none
    | '{' :: r =>
      match skipWs r with
      | '}' :: r1 => some (JVal.obj [], r1)
      | r1 =>
        match parseMembers fuel r1 with
        | some (ms, r2) =>
          some (JVal.obj (ms.foldl (fun members m => setMember m.1 m.2 members) []), r2)
        | none => none
    | '\"' :: r =>
      match parseString r with
      | some (s, r1) => some (JVal.str s, r1)
      | none => none
    | 't' :: 'r' :: 'u' :: 'e' :: r => some (JVal.bool true, r)
    | 'f' :: 'a' :: 'l' :: 's' :: 'e' :: r => some (JVal.bool false, r)
    | 'n' :: 'u' :: 'l' :: 'l' :: r => some (JVal.null, r)
    | c :: r =>
      match parseNumber (c :: r) with
      | some (x, r1) => some (JVal.num x, r1)
      | none => none
/-- The elements of a non-empty array after its `[`, through the closing `]`. -/
def parseElements : Nat → Str → Option (List JVal × Str)
  | 0, _ => none
  | fuel + 1, cs =>
    match parseValue fuel cs with
    | none => none
    | some (v, r) =>
      match skipWs r with
      | ',' :: r1 =>
        match parseElements fuel r1 with
        | some (vs, r2) => some (v :: vs, r2)
        | none => none
      | ']' :: r1 => some ([v], r1)
      | _ => none
/-- The members of a non-empty object after its `{`, through the closing `}`,
as written. -/
def parseMembers : Nat → Str → Option (List (Str × JVal) × Str)
  | 0, _ => none
  | fuel + 1, cs =>
    match skipWs cs with
    | '\"' :: r =>
      match parseString r with
      | none => none
      | some (k, r1) =>
        match skipWs r1 with
        | ':' :: r2 =>
          match parseValue fuel r2 with
          | none => none
          | some (v, r3) =>
            match skipWs r3 with
            | ',' :: r4 =>
              match parseMembers fuel r4 with
              | some (ms, r5) => some ((k, v) :: ms, r5)
              | none => none
            | '}' :: r4 => some ([(k, v)], r4)
            | _ => none
        | _ => none
    | _ => none
end

/-- The host function `JSON.parse`: the value of a text that is one JSON value between optional
whitespace, and a `SyntaxError` for any other text.  The members of an object
are in enumeration order: a repeated key holds its last value. -/
def JSON.parse (text : Str) : Except JSError JVal :=
  match parseValue (2 * text.length + 2) text with
  | some (v, rest) =>
    match skipWs rest with
    | [] => Except.ok v
    | _ => Except.error JSError.syntaxError
  | none => Except.error JSError.syntaxError

/-- The lower-case character of a hexadecimal digit. -/
def hexDigit (d : Nat) : Char := if d < 10 then Char.ofNat (48 + d) else Char.ofNat (87 + d)

/-- The operation `QuoteJSONString` without the surrounding quotes: escapes for the quote, the
backslash and the control characters. -/
def escapeChars : Str → Str
  | [] => []
  | c :: cs =>
    (if c = '\"' then ['\\', '\"']
     else if c = '\\' then ['\\', '\\']
     else if c.toNat = 8 then ['\\', 'b']
     else if c.toNat = 12 then ['\\', 'f']
     else if c.toNat = 10 then ['\\', 'n']
     else if c.toNat = 13 then ['\\', 'r']
     else if c.toNat = 9 then ['\\', 't']
     else if c.toNat < 32 then
       ['\\', 'u', '0', '0', hexDigit (c.toNat / 16), hexDigit (c.toNat % 16)]
     else [c]) ++ escapeChars cs

/-- The operation `QuoteJSONString`. -/
def quote (s : Str) : Str := '\"' :: (escapeChars s ++ ['\"'])

mutual
/-- The host function `JSON.stringify` without indentation; a number that is not finite is
written `null`. -/
def JSON.stringify : JVal → Str
  | JVal.null => "null".toList
  | JVal.bool true => "true".toList
  | JVal.bool false => "false".toList
  | JVal.num JSNumber.nan => "null".toList
  | JVal.num JSNumber.posInf => "null".toList
  | JVal.num JSNumber.negInf => "null".toList
  | JVal.num (JSNumber.fin q) => numberToString (JSNumber.fin q)
  | JVal.str s => quote s
  | JVal.arr items => '[' :: (stringifyItems items ++ [']'])
  | JVal.obj members => '{' :: (stringifyMembers members ++ ['}'])
/-- The elements of an array, separated by commas. -/
def stringifyItems : List JVal → Str
  | [] => []
  | [v] => JSON.stringify v
  | v :: w :: rest => JSON.stringify v ++ ',' :: stringifyItems (w :: rest)
/-- The members of an object, separated by commas. -/
def stringifyMembers : List (Str × JVal) → Str
  | [] => []
  | [(k, v)] => quote k ++ ':' :: JSON.stringify v
  | (k, v) :: m :: rest => quote k ++ ':' :: JSON.stringify v ++ ',' :: stringifyMembers (m :: rest)
end

/-! ## `parseInt` and `parseFloat` -/

/-- Longest run of hexadecimal digits at the head of the text. -/
def takeHexDigits : Str → List Nat
  | [] => []
  | c :: cs =>
    match hexVal c with
    | some d => d :: takeHexDigits cs
    | none => []

/-- Value of a big-endian list of hexadecimal digits. -/
def ofHexDigits (ds : List Nat) : Nat := ds.foldl (fun acc d => 16 * acc + d) 0

/-- An optional sign at the head of the text: whether it is a minus, and what
follows it. -/
def takeSign : Str → Bool × Str
  | '-' :: r => (true, r)
  | '+' :: r => (false, r)
  | r => (false, r)

/-- The digits `parseInt` reads after the sign: hexadecimal after `0x` or `0X`,
decimal otherwise; `none` when there is no digit. -/
def parseMagnitude : Str → Option Nat
  | '0' :: 'x' :: r =>
    match takeHexDigits r with
    | [] => none
    | ds => some (ofHexDigits ds)
  | '0' :: 'X' :: r =>
    match takeHexDigits r with
    | [] => none
    | ds => some (ofHexDigits ds)
  | r =>
    match (takeDigits r).1 with
    | [] => none
    | ds => some (ofDigits ds)

/-- The host function `parseInt(string)` without a radix: leading whitespace is skipped, then an
optional sign, then the longest run of digits is read and its value rounded to
a double; `NaN` when there is no digit. -/
def parseInt (s : Str) : JSNumber :=
  let signed := takeSign (s.dropWhile isWhiteSpace)
  match parseMagnitude signed.2 with
  | none => JSNumber.nan
  | some n => if signed.1 then -(roundDecimal n 0) else roundDecimal n 0

/-- The exponent a decimal literal continues with: `e` or `E`, an optional sign
and at least one digit; `0` when the text does not continue so. -/
def exponentOf : Str → Int
  | [] => 0
  | c :: rest =>
    if c = 'e' ∨ c = 'E' then
      match (takeDigits (takeSign rest).2).1 with
      | [] => 0
      | ds => if (takeSign rest).1 then - (ofDigits ds : Int) else (ofDigits ds : Int)
    else 0

/-- The host function `parseFloat(string)`: leading whitespace is skipped and the longest prefix
that is a decimal literal is read: an optional sign, then either `Infinity` or
digits, point, digits and exponent, whose value is rounded to a double; `NaN`
when no prefix is a literal. -/
def parseFloat (s : Str) : JSNumber :=
  let signed := takeSign (s.dropWhile isWhiteSpace)
  if startsWith signed.2 "Infinity".toList then
    if signed.1 then JSNumber.negInf else JSNumber.posInf
  else
    let ip := takeDigits signed.2
    let fp : List Nat × Str :=
      match ip.2 with
      | '.' :: r => takeDigits r
      | r => ([], r)
    if ip.1 = [] ∧ fp.1 = [] then JSNumber.nan
    else
      let x := roundDecimal (ofDigits (ip.1 ++ fp.1)) (exponentOf fp.2 - (fp.1.length : Int))
      if signed.1 then -x else x

/-! ## Data model -/

/-- A transaction record, as built at lines 43-48 of `script.js`. -/
structure Transaction where
  id : Int
  type : Str
  description : Str
  amount : JSNumber
  deriving DecidableEq

/-- The object `JSON.stringify` sees for a record: its four properties in
creation order. -/
def Transaction.toJSON (t : Transaction) : JVal :=
  JVal.obj [("id".toList, JVal.num (JSNumber.fin t.id)), ("type".toList, JVal.str t.type),
    ("description".toList, JVal.str t.description), ("amount".toList, JVal.num t.amount)]

/-- The array value of a ledger. -/
def ledgerJSON (ledger : List Transaction) : JVal :=
  JVal.arr (ledger.map Transaction.toJSON)

/-- An element that can be the target of a click: its class list and its
`data-id` attribute (`none` when it has none). -/
structure Target where
  classList : List Str
  dataId : Option Str
  deriving DecidableEq

/-- A child of `#transaction-list`: the placeholder line, or the item of one
record (the number shown is the one handed to `toFixed(2)`). -/
inductive ListEntry where
  | placeholder
  | item (className description amountClass : Str) (sign : Char) (amount : JSNumber)
      (button : Target)
  deriving DecidableEq

/-- The state the handlers read and write: the closure variable `transactions`,
the values of the form controls and of the filter, what the page shows, every
text assigned to `document.cookie` (oldest first) and every `alert` shown. -/
structure App where
  transactions : List Transaction
  typeValue : Str
  descriptionValue : Str
  amountValue : Str
  filterValue : Str
  transactionList : List ListEntry
  totalIncome : JSNumber
  totalExpenses : JSNumber
  balance : JSNumber
  balanceClass : Str
  cookieWrites : List Str
  alerts : List Str
  deriving DecidableEq

/-! ## The functions of `script.js` -/

/-- The function `generateId` (lines 139-141): `Date.now()`, the clock reading `now`. -/
def generateId (now : Int) : Int := now

/-- The function `saveTransactionsToCookies` (lines 146-152); `expires` is the text of
`expiryDate.toUTCString()`. -/
def saveTransactionsToCookies (expires : Str) (app : App) : App :=
  let transactionsJson := JSON.stringify (ledgerJSON app.transactions)
  { app with
    cookieWrites := app.cookieWrites ++
      ["transactions=".toList ++ transactionsJson ++ ";expires=".toList ++ expires ++
        ";path=/;SameSite=Lax".toList] }

/-- The `for` loop of `loadTransactionsFromCookies` (lines 160-175) over the
pieces of `document.cookie`; the `try`/`catch` turns the `SyntaxError` of
`JSON.parse` into the empty array. -/
def loadLoop : List Str → Except JSError JVal
  | [] => Except.ok (JVal.arr [])
  | piece :: rest =>
    let cookie := trim piece
    if startsWith cookie "transactions=".toList then
      let transactionsJson := substring cookie "transactions=".toList.length
      match JSON.parse transactionsJson with
      | Except.ok parsedTransactions => Except.ok parsedTransactions
      | Except.error _ => Except.ok (JVal.arr [])
    else loadLoop rest

/-- The function `loadTransactionsFromCookies` (lines 158-176) on the text of
`document.cookie`. -/
def loadTransactionsFromCookies (documentCookie : Str) : Except JSError JVal :=
  loadLoop (split ';' documentCookie)

/-- The receiver of the call `transactions.filter(...)` that the first
`renderTransactions()` (line 22, then line 81) makes on the value the load
returned at line 14: the items of an array.  Any other JSON value (`null`, a
boolean, a number, a string, a plain object) has no `filter` method, and the
call is a `TypeError` that nothing catches. -/
def firstRenderReceiver (documentCookie : Str) : Except JSError (List JVal) :=
  match loadTransactionsFromCookies documentCookie with
  | Except.error e => Except.error e
  | Except.ok (JVal.arr items) => Except.ok items
  | Except.ok _ => Except.error JSError.typeError

/-- The predicate of the `filter` call in `renderTransactions` (lines 81-84). -/
def matchesFilter (filterValue : Str) (transaction : Transaction) : Bool :=
  if filterValue = "all".toList then true else transaction.type = filterValue

/-- The delete button of line 101: class `delete-btn`, `data-id` the text the
template literal gives for the record's id (`Number::toString`). -/
def deleteButton (id : Int) : Target :=
  { classList := ["delete-btn".toList], dataId := some (numberToString (JSNumber.fin id)) }

/-- The list item built for one record (lines 92-102). -/
def listItem (transaction : Transaction) : ListEntry :=
  ListEntry.item
    ("transaction-item ".toList ++ transaction.type ++ "-item".toList)
    transaction.description
    (if transaction.type = "income".toList then "text-green-600".toList
     else "text-red-600".toList)
    (if transaction.type = "income".toList then '+' else '-')
    transaction.amount
    (deleteButton transaction.id)

/-- The function `renderTransactions` (lines 77-105). -/
def renderTransactions (app : App) : App :=
  let filterValue := app.filterValue
  let filteredTransactions := app.transactions.filter (matchesFilter filterValue)
  if filteredTransactions.length = 0 then
    { app with transactionList := [ListEntry.placeholder] }
  else
    { app with transactionList := filteredTransactions.map listItem }

/-- The function `updateSummary` (lines 110-133). -/
def updateSummary (app : App) : App :=
  let income := (app.transactions.filter (fun t => t.type = "income".toList)).foldl
    (fun acc t => acc + t.amount) 0
  let expenses := (app.transactions.filter (fun t => t.type = "expense".toList)).foldl
    (fun acc t => acc + t.amount) 0
  let balance := income - expenses
  { app with
    totalIncome := income
    totalExpenses := expenses
    balance := balance
    balanceClass :=
      if balance < 0 then "text-red-500".toList
      else if balance > 0 then "text-green-500".toList
      else "text-blue-500".toList }

/-- The text of the `alert` of line 39. -/
def validationMessage : Str := "Please enter a valid description and amount.".toList

/-- The function `handleAddTransaction` (lines 31-58), run when the clock reads `now`. -/
def handleAddTransaction (now : Int) (expires : Str) (app : App) : App :=
  let type := app.typeValue
  let description := trim app.descriptionValue
  let amount := parseFloat app.amountValue
  if description = [] ∨ amount.isNaN = true ∨ amount ≤ 0 then
    { app with alerts := app.alerts ++ [validationMessage] }
  else
    let newTransaction : Transaction :=
      { id := generateId now, type := type, description := description, amount := amount }
    let pushed := { app with transactions := app.transactions ++ [newTransaction] }
    let updated := updateSummary (renderTransactions (saveTransactionsToCookies expires pushed))
    { updated with descriptionValue := [], amountValue := [], typeValue := "income".toList }

/-- The function `handleDeleteTransaction` (lines 64-72) for a click on `target`; an element
without a `data-id` has `dataset.id` undefined, which `parseInt` reads as `NaN`. -/
def handleDeleteTransaction (expires : Str) (target : Target) (app : App) : App :=
  if "delete-btn".toList ∈ target.classList then
    let transactionId : JSNumber :=
      match target.dataId with
      | some text => parseInt text
      | none => JSNumber.nan
    let kept := { app with
      transactions := app.transactions.filter (fun t => JSNumber.fin t.id ≠ transactionId) }
    updateSummary (renderTransactions (saveTransactionsToCookies expires kept))
  else app

/-- The `change` listener of the filter control (line 19) after the user picks
`value`. -/
def handleFilterChange (value : Str) (app : App) : App :=
  renderTransactions { app with filterValue := value }

/-- The page right after the script ran (lines 14-23) with `transactions` the
ledger `ledger`: empty form, filter `all`, list and summary rendered. -/
def initialApp (ledger : List Transaction) : App :=
  updateSummary (renderTransactions
    { transactions := ledger, typeValue := "income".toList, descriptionValue := [],
      amountValue := [], filterValue := "all".toList, transactionList := [],
      totalIncome := 0, totalExpenses := 0, balance := 0, balanceClass := [],
      cookieWrites := [], alerts := [] })

/-- What the user does between two states of the page. -/
inductive Action where
  | submit (typeValue descriptionValue amountValue : Str) (now : Int) (expires : Str)
  | click (target : Target) (expires : Str)
  | pickFilter (value : Str)

/-- The page after one action: a submission fills the three form controls and
fires `submit`; a click fires `click` on its target; a pick fires `change`. -/
def step (app : App) : Action → App
  | Action.submit typeValue descriptionValue amountValue now expires =>
    handleAddTransaction now expires
      { app with typeValue := typeValue, descriptionValue := descriptionValue,
                 amountValue := amountValue }
  | Action.click target expires => handleDeleteTransaction expires target app
  | Action.pickFilter value => handleFilterChange value app

/-- The page after a sequence of actions. -/
def run (app : App) (actions : List Action) : App := actions.foldl step app

/-! ## The words of the specification, and its scenarios -/

/-- The view `list(filter)` of the specification: every record for `all`,
otherwise the records whose type is the filter, in ledger order. -/
def listView (filterValue : Str) (ledger : List Transaction) : List Transaction :=
  if filterValue = "all".toList then ledger
  else ledger.filter (fun t => t.type = filterValue)

/-- A stored value is a valid record sequence when it is the array of some
ledger. -/
def IsRecordSequence (v : JVal) : Prop := ∃ ledger : List Transaction, v = ledgerJSON ledger

/-- The scenario `add(income, "Salary", 1000.00)`. -/
def submitSalary (now : Int) (expires : Str) : Action :=
  Action.submit "income".toList "Salary".toList "1000.00".toList now expires

/-- The scenario `add(expense, "Rent", 400.00)`. -/
def submitRent (now : Int) (expires : Str) : Action :=
  Action.submit "expense".toList "Rent".toList "400.00".toList now expires

/-- The record of the Salary scenario. -/
def salaryRecord (now : Int) : Transaction :=
  { id := now, type := "income".toList, description := "Salary".toList, amount := 1000 }

/-- The record of the Rent scenario. -/
def rentRecord (now : Int) : Transaction :=
  { id := now, type := "expense".toList, description := "Rent".toList, amount := 400 }

/-- Every submission of the sequence is handled at a clock reading above every id
the ledger holds at that moment. -/
def FreshClock : App → List Action → Prop
  | _, [] => True
  | app, Action.submit typeValue descriptionValue amountValue now expires :: rest =>
    (∀ t ∈ app.transactions, t.id < now) ∧
      FreshClock (step app (Action.submit typeValue descriptionValue amountValue now expires)) rest
  | app, Action.click target expires :: rest =>
    FreshClock (step app (Action.click target expires)) rest
  | app, Action.pickFilter value :: rest =>
    FreshClock (step app (Action.pickFilter value)) rest

/-- A ledger of one well-formed record whose description holds a semicolon. -/
def semicolonLedger : List Transaction :=
  [{ id := 1, type := "income".toList, description := "a;b".toList, amount := 5 }]

/-- The cookie text written for `semicolonLedger`, up to its first semicolon. -/
def semicolonHead : Str :=
  "transactions=[\x7b\"id\":1,\"type\":\"income\",\"description\":\"a".toList

/-- The JSON text of `semicolonLedger` after its semicolon. -/
def semicolonTail : Str := "b\",\"amount\":5\x7d]".toList

/-- A ledger of one record with a negative amount. -/
def negativeLedger : List Transaction :=
  [{ id := 1, type := "income".toList, description := "x".toList, amount := -5 }]

/-- A cookie text that stores `negativeLedger`. -/
def negativeCookie : Str :=
  "transactions=[\x7b\"id\":1,\"type\":\"income\",\"description\":\"x\",\"amount\":-5\x7d]".toList

/-- A ledger whose first record has the id `10 ^ 21`, printed `1e+21`, and whose
second record has the id 1. -/
def exponentLedger : List Transaction :=
  [{ id := 10 ^ 21, type := "income".toList, description := "a".toList, amount := 5 },
   { id := 1, type := "income".toList, description := "b".toList, amount := 7 }]

/-! ## Equality tests on JSON values -/

mutual
/-- Whether two JSON values are the same. -/
def JVal.same : JVal → JVal → Bool
  | JVal.null, JVal.null => true
  | JVal.bool a, JVal.bool b => decide (a = b)
  | JVal.num a, JVal.num b => decide (a = b)
  | JVal.str a, JVal.str b => decide (a = b)
  | JVal.arr a, JVal.arr b => JVal.sameItems a b
  | JVal.obj a, JVal.obj b => JVal.sameMembers a b
  | _, _ => false
/-- Whether two lists of JSON values are the same. -/
def JVal.sameItems : List JVal → List JVal → Bool
  | [], [] => true
  | a :: as, b :: bs => JVal.same a b && JVal.sameItems as bs
  | _, _ => false
/-- Whether two lists of members are the same. -/
def JVal.sameMembers : List (Str × JVal) → List (Str × JVal) → Bool
  | [], [] => true
  | (j, a) :: as, (k, b) :: bs => decide (j = k) && JVal.same a b && JVal.sameMembers as bs
  | _, _ => false
end

/-- Whether two results, a JSON value or an exception, are the same. -/
def sameResult : Except JSError JVal → Except JSError JVal → Bool
  | Except.ok a, Except.ok b => JVal.same a b
  | Except.error a, Except.error b => decide (a = b)
  | _, _ => false

/-! ## Decimal text of integers -/

theorem digitVal_digitChar (d : Nat) (h : d < 10) : digitVal (digitChar d) = some d := by
  interval_cases d <;> decide

theorem digitChar_ne_x (d : Nat) (h : d < 10) :
    digitChar d ≠ 'x' ∧ digitChar d ≠ 'X' ∧ digitChar d ≠ '-' ∧ digitChar d ≠ '+' ∧
      isWhiteSpace (digitChar d) = false := by
  interval_cases d <;> decide

theorem takeDigits_map_digitChar (ds : List Nat) (h : ∀ d ∈ ds, d < 10) :
    takeDigits (ds.map digitChar) = (ds, []) := by
  induction ds with
  | nil => rfl
  | cons d ds ih =>
    have hd := digitVal_digitChar d (h d (List.mem_cons_self _ _))
    have ih1 := ih (fun x hx => h x (List.mem_cons_of_mem _ hx))
    simp [takeDigits, hd, ih1]

theorem ofDigits_append_single (ds : List Nat) (d : Nat) :
    ofDigits (ds ++ [d]) = 10 * ofDigits ds + d := by
  simp [ofDigits, List.foldl_append]

theorem natDigitsAux_spec (fuel : Nat) : ∀ (n : Nat) (acc : Str), n < fuel →
    ∃ ds : List Nat, natDigitsAux fuel n acc = ds.map digitChar ++ acc ∧
      (∀ d ∈ ds, d < 10) ∧ ds ≠ [] ∧ ofDigits ds = n := by
  induction fuel with
  | zero => intro n acc h; omega
  | succ fuel ih =>
    intro n acc h
    unfold natDigitsAux
    by_cases h0 : n / 10 = 0
    · refine ⟨[n % 10], ?_, ?_, by simp, ?_⟩
      · simp [h0]
      · intro d hd; simp at hd; omega
      · simp [ofDigits]; omega
    · have hlt : n / 10 < fuel := by omega
      obtain ⟨ds, h1, h2, h3, h4⟩ := ih (n / 10) (digitChar (n % 10) :: acc) hlt
      refine ⟨ds ++ [n % 10], ?_, ?_, by simp, ?_⟩
      · simp [h0, h1]
      · intro d hd
        rcases List.mem_append.mp hd with hd | hd
        · exact h2 d hd
        · simp at hd; omega
      · rw [ofDigits_append_single, h4]; omega

theorem natToString_spec (n : Nat) :
    ∃ ds : List Nat, natToString n = ds.map digitChar ∧
      (∀ d ∈ ds, d < 10) ∧ ds ≠ [] ∧ ofDigits ds = n := by
  obtain ⟨ds, h1, h2, h3, h4⟩ := natDigitsAux_spec (n + 1) n [] (Nat.lt_succ_self n)
  exact ⟨ds, by simpa [natToString] using h1, h2, h3, h4⟩

theorem parseMagnitude_digits (ds : List Nat) (hlt : ∀ d ∈ ds, d < 10) (hne : ds ≠ []) :
    parseMagnitude (ds.map digitChar) = some (ofDigits ds) := by
  obtain ⟨d, ds, rfl⟩ := List.exists_cons_of_ne_nil hne
  have htd := takeDigits_map_digitChar (d :: ds) hlt
  unfold parseMagnitude
  split
  · next h =>
    cases ds with
    | nil => simp at h
    | cons e es =>
      have he := digitChar_ne_x e (hlt e (by simp))
      simp only [List.map_cons, List.cons.injEq] at h
      exact absurd h.2.1 he.1
  · next h =>
    cases ds with
    | nil => simp at h
    | cons e es =>
      have he := digitChar_ne_x e (hlt e (by simp))
      simp only [List.map_cons, List.cons.injEq] at h
      exact absurd h.2.1 he.2.1
  · simp only [htd]

theorem parseInt_natDigits (ds : List Nat) (hlt : ∀ d ∈ ds, d < 10) (hne : ds ≠ []) (neg : Bool) :
    parseInt ((if neg then ['-'] else []) ++ ds.map digitChar) =
      if neg then -(roundDecimal (ofDigits ds) 0) else roundDecimal (ofDigits ds) 0 := by
  have hmag := parseMagnitude_digits ds hlt hne
  obtain ⟨d, ds, rfl⟩ := List.exists_cons_of_ne_nil hne
  have hd := digitChar_ne_x d (hlt d (List.mem_cons_self _ _))
  have hsign : takeSign (((if neg then ['-'] else []) ++ (d :: ds).map digitChar).dropWhile
      isWhiteSpace) = (neg, (d :: ds).map digitChar) := by
    cases neg
    · simp only [Bool.false_eq_true, if_false, List.nil_append, List.map_cons]
      rw [List.dropWhile_cons_of_neg (by simp [hd.2.2.2.2])]
      unfold takeSign
      split
      · next h => exact absurd (List.cons.inj h).1 hd.2.2.1
      · next h => exact absurd (List.cons.inj h).1 hd.2.2.2.1
      · rfl
    · simp only [if_true, List.map_cons, List.singleton_append]
      rw [List.dropWhile_cons_of_neg (by decide)]
      rfl
  unfold parseInt
  simp only [hsign, hmag]

theorem ofDigits_lt (ds : List Nat) (h : ∀ d ∈ ds, d < 10) : ofDigits ds < 10 ^ ds.length := by
  induction ds using List.reverseRecOn with
  | nil => simp [ofDigits]
  | append_singleton ds d ih =>
    have hd : d < 10 := h d (by simp)
    have := ih (fun x hx => h x (by simp [hx]))
    rw [ofDigits_append_single, List.length_append, List.length_singleton, pow_succ]
    omega

theorem ofDigits_append_zeros (ds : List Nat) (j : Nat) :
    ofDigits (ds ++ List.replicate j 0) = ofDigits ds * 10 ^ j := by
  induction j with
  | zero => simp
  | succ j ih =>
    rw [List.replicate_succ', ← List.append_assoc, ofDigits_append_single, ih, pow_succ]
    ring

theorem natToString_length_lt (n : Nat) : n < 10 ^ (natToString n).length := by
  obtain ⟨ds, h1, h2, _, h4⟩ := natToString_spec n
  rw [h1, List.length_map, ← h4]
  exact ofDigits_lt ds h2

theorem natDigitsAux_length_le (fuel : Nat) : ∀ (n : Nat) (acc : Str) (j : Nat),
    n < 10 ^ (j + 1) → (natDigitsAux fuel n acc).length ≤ acc.length + j + 1 := by
  induction fuel with
  | zero =>
    intro n acc j _
    simp only [natDigitsAux]
    omega
  | succ fuel ih =>
    intro n acc j h
    unfold natDigitsAux
    by_cases h0 : n / 10 = 0
    · simp only [h0, if_true, List.length_cons]
      omega
    · simp only [h0, if_false]
      cases j with
      | zero => omega
      | succ j =>
        have hlt : n / 10 < 10 ^ (j + 1) := by
          rw [pow_succ] at h
          omega
        have := ih (n / 10) (digitChar (n % 10) :: acc) j hlt
        simp only [List.length_cons] at this
        omega

theorem natToString_length_le (n j : Nat) (h : n < 10 ^ (j + 1)) :
    (natToString n).length ≤ j + 1 := by
  have := natDigitsAux_length_le (n + 1) n [] j h
  simpa [natToString] using this

theorem stripZeros_append (ds : Str) :
    ds = stripZeros ds ++ List.replicate (ds.length - (stripZeros ds).length) '0' := by
  have h := List.takeWhile_append_dropWhile (fun c => decide (c = '0')) ds.reverse
  have hall : ∀ c ∈ ds.reverse.takeWhile (fun c => decide (c = '0')), c = '0' := by
    intro c hc
    simpa using List.mem_takeWhile_imp hc
  have hrep : ds.reverse.takeWhile (fun c => decide (c = '0')) =
      List.replicate (ds.reverse.takeWhile (fun c => decide (c = '0'))).length '0' :=
    List.eq_replicate_iff.mpr ⟨rfl, hall⟩
  have hds : ds = stripZeros ds ++ (ds.reverse.takeWhile (fun c => decide (c = '0'))).reverse := by
    have := congrArg List.reverse h
    rw [List.reverse_append, List.reverse_reverse] at this
    exact this.symm
  have hlen : ds.length - (stripZeros ds).length =
      (ds.reverse.takeWhile (fun c => decide (c = '0'))).length := by
    have := congrArg List.length hds
    rw [List.length_append, List.length_reverse] at this
    omega
  rw [hlen]
  conv_lhs => rw [hds]
  rw [hrep]
  simp

/-! ## The shortest digits that read back -/

theorem pickCandidate_some (q : ℚ) (x : Int) (lo s : Nat)
    (h : pickCandidate q x lo = some s) :
    roundDecimal s x = JSNumber.fin q ∧ (s = lo ∨ s = lo + 1) := by
  unfold pickCandidate at h
  by_cases h1 : roundDecimal lo x = JSNumber.fin q <;>
    by_cases h2 : roundDecimal (lo + 1) x = JSNumber.fin q <;>
    simp only [h1, h2, decide_True, decide_False] at h
  · split_ifs at h <;> cases h <;> simp [h1, h2]
  · cases h; simp [h1]
  · cases h; simp [h2]
  · cases h

theorem pickCandidate_isSome (q : ℚ) (x : Int) (lo : Nat)
    (h : roundDecimal lo x = JSNumber.fin q) : ∃ s, pickCandidate q x lo = some s := by
  unfold pickCandidate
  by_cases h2 : roundDecimal (lo + 1) x = JSNumber.fin q <;>
    simp only [h, h2, decide_True, decide_False]
  · split_ifs <;> exact ⟨_, rfl⟩
  · exact ⟨_, rfl⟩

theorem shortestAux_some (q : ℚ) (n0 : Int) (fuel : Nat) : ∀ (k s j : Nat),
    shortestAux q n0 fuel k = some (s, j) →
      k ≤ j ∧ j < k + fuel ∧
        pickCandidate q (n0 - (j : Int)) (floorScaled q.num.natAbs q.den (n0 - (j : Int))) =
          some s := by
  induction fuel with
  | zero => intro k s j h; simp [shortestAux] at h
  | succ fuel ih =>
    intro k s j h
    unfold shortestAux at h
    cases hp : pickCandidate q (n0 - (k : Int)) (floorScaled q.num.natAbs q.den (n0 - (k : Int))) with
    | some s1 =>
      rw [hp] at h
      simp only [Option.some.injEq, Prod.mk.injEq] at h
      obtain ⟨rfl, rfl⟩ := h
      exact ⟨le_refl _, by omega, hp⟩
    | none =>
      rw [hp] at h
      obtain ⟨h1, h2, h3⟩ := ih (k + 1) s j h
      exact ⟨by omega, by omega, h3⟩

theorem shortestAux_isSome (q : ℚ) (n0 : Int) (fuel : Nat) : ∀ (k k1 : Nat),
    k ≤ k1 → k1 < k + fuel →
    (∃ s, pickCandidate q (n0 - (k1 : Int))
        (floorScaled q.num.natAbs q.den (n0 - (k1 : Int))) = some s) →
      ∃ s j, shortestAux q n0 fuel k = some (s, j) ∧ j ≤ k1 := by
  induction fuel with
  | zero => intro k k1 h1 h2; omega
  | succ fuel ih =>
    intro k k1 h1 h2 h3
    unfold shortestAux
    cases hp : pickCandidate q (n0 - (k : Int)) (floorScaled q.num.natAbs q.den (n0 - (k : Int))) with
    | some s1 => exact ⟨s1, k, rfl, h1⟩
    | none =>
      have hne : k ≠ k1 := by
        rintro rfl
        obtain ⟨s, hs⟩ := h3
        rw [hs] at hp
        cases hp
      exact ih (k + 1) k1 (by omega) (by omega) h3

theorem roundDecimal_zero (x : Int) : roundDecimal 0 x = JSNumber.fin 0 := by
  simp [roundDecimal]

theorem roundDecimal_scale (s j : Nat) (hs : s ≠ 0) (hj : j < 310) :
    roundDecimal (s * 10 ^ j) 0 = roundDecimal s (j : Int) := by
  have h1 : s * 10 ^ j ≠ 0 := Nat.mul_ne_zero hs (pow_ne_zero _ (by norm_num))
  have h2 : ¬ (310 : Int) ≤ (j : Int) := by omega
  have h3 : ¬ ((j : Int) + ((natToString s).length : Int) ≤ -330) := by omega
  have h4 : ¬ ((0 : Int) + ((natToString (s * 10 ^ j)).length : Int) ≤ -330) := by omega
  have h5 : (0 : Int) ≤ (j : Int) := by omega
  unfold roundDecimal
  simp only [h1, h2, h3, h4, h5, if_false, if_true, le_refl, Int.toNat_zero, pow_zero, mul_one,
    Int.toNat_ofNat]
  simp [hs]

/-! ## The text of an integer below `10 ^ 21` -/

theorem roundDecimal_ten_pow_21 : roundDecimal (10 ^ 21) 0 = JSNumber.fin ((10 ^ 21 : Nat) : ℚ) := by
  decide!

theorem decimalExponent_nat (m : Nat) (hm : 0 < m) :
    decimalExponent m 1 = ((natToString m).length : Int) := by
  unfold decimalExponent
  rw [if_pos (by omega), Nat.div_one]

theorem floorScaled_nat (m j : Nat) : floorScaled m 1 (j : Int) = m / 10 ^ j := by
  unfold floorScaled
  rw [if_pos (by omega), Int.toNat_ofNat, one_mul]

theorem formatDigits_plain (ds : Str) (n : Int) (h1 : (ds.length : Int) ≤ n) (h2 : n ≤ 21) :
    formatDigits ds n = ds ++ List.replicate (n - (ds.length : Int)).toNat '0' := by
  unfold formatDigits
  simp only [h1, h2, and_self, if_true]

theorem shortestDigits_nat (m : Nat) (hm : 0 < m) (hlt : m < 10 ^ 21)
    (hd : roundDecimal m 0 = JSNumber.fin (m : ℚ)) :
    ∃ s j : Nat, s ≠ 0 ∧ j < 310 ∧ roundDecimal s (j : Int) = JSNumber.fin (m : ℚ) ∧
      (shortestDigits (m : ℚ)).1 = stripZeros (natToString s) ∧
      (shortestDigits (m : ℚ)).2 = ((natToString s).length : Int) + (j : Int) ∧
      (natToString s).length + j ≤ 21 := by
  have hnum : ((m : ℚ)).num.natAbs = m := by simp
  have hden : ((m : ℚ)).den = 1 := by simp
  have hlen1 : m < 10 ^ (natToString m).length := natToString_length_lt m
  have hlen2 : (natToString m).length ≤ 21 := natToString_length_le m 20 hlt
  have hlen0 : 1 ≤ (natToString m).length := by
    rcases Nat.eq_zero_or_pos (natToString m).length with h | h
    · rw [h] at hlen1; simp at hlen1; omega
    · exact h
  obtain ⟨s, k, hk, hkle⟩ := shortestAux_isSome (m : ℚ) ((natToString m).length : Int) 21 1
    (natToString m).length hlen0 (by omega)
    (by
      rw [hnum, hden, sub_self]
      have h0 := floorScaled_nat m 0
      simp only [Nat.cast_zero, pow_zero, Nat.div_one] at h0
      rw [h0]
      exact pickCandidate_isSome (m : ℚ) 0 m hd)
  obtain ⟨hk1, _, hpick⟩ := shortestAux_some (m : ℚ) _ 21 1 s k hk
  rw [hnum, hden] at hpick
  obtain ⟨j, hj⟩ : ∃ j : Nat, (natToString m).length = j + k := ⟨(natToString m).length - k, by omega⟩
  have hsub : (((natToString m).length : Nat) : Int) - (k : Int) = (j : Int) := by
    rw [hj]; push_cast; ring
  rw [hsub, floorScaled_nat] at hpick
  obtain ⟨hround, hs⟩ := pickCandidate_some (m : ℚ) (j : Int) (m / 10 ^ j) s hpick
  have hs0 : s ≠ 0 := by
    rintro rfl
    rw [roundDecimal_zero] at hround
    have : (0 : ℚ) = (m : ℚ) := JSNumber.fin.inj hround
    have : m = 0 := by exact_mod_cast this.symm
    omega
  have hlo : m / 10 ^ j < 10 ^ k := by
    rw [Nat.div_lt_iff_lt_mul (by positivity), ← pow_add, Nat.add_comm k j, ← hj]
    exact hlen1
  have hsle : s ≤ 10 ^ k := by omega
  have hDle : (natToString s).length ≤ k + 1 :=
    natToString_length_le s k (by rw [pow_succ]; omega)
  have hbound : (natToString s).length + j ≤ 21 := by
    by_contra hcon
    have hk21 : j + k = 21 := by omega
    have hD : (natToString s).length = k + 1 := by omega
    have hsge : 10 ^ k ≤ s := by
      by_contra hlt2
      obtain ⟨k0, rfl⟩ : ∃ k0, k = k0 + 1 := ⟨k - 1, by omega⟩
      have := natToString_length_le s k0 (by omega)
      omega
    have hseq : s = 10 ^ k := le_antisymm hsle hsge
    have h21 : roundDecimal (10 ^ 21) 0 = JSNumber.fin (m : ℚ) := by
      rw [← hround, ← roundDecimal_scale s j hs0 (by omega), hseq, ← pow_add, Nat.add_comm k j,
        hk21]
    rw [roundDecimal_ten_pow_21] at h21
    have : ((10 ^ 21 : Nat) : ℚ) = (m : ℚ) := JSNumber.fin.inj h21
    have : 10 ^ 21 = m := by exact_mod_cast this
    omega
  refine ⟨s, j, hs0, by omega, hround, ?_, ?_, hbound⟩
  · unfold shortestDigits
    simp only [hnum, hden, decimalExponent_nat m hm, hk]
  · unfold shortestDigits
    simp only [hnum, hden, decimalExponent_nat m hm, hk]
    rw [hj]
    push_cast
    ring

theorem numberToString_nat (m : Nat) (hm : 0 < m) (hlt : m < 10 ^ 21)
    (hd : roundDecimal m 0 = JSNumber.fin (m : ℚ)) :
    ∃ ds : List Nat, formatDigits (shortestDigits (m : ℚ)).1 (shortestDigits (m : ℚ)).2 =
        ds.map digitChar ∧
      (∀ d ∈ ds, d < 10) ∧ ds ≠ [] ∧ roundDecimal (ofDigits ds) 0 = JSNumber.fin (m : ℚ) := by
  obtain ⟨s, j, hs0, hj, hround, h1, h2, hb⟩ := shortestDigits_nat m hm hlt hd
  obtain ⟨ds, hds, hdlt, hdne, hdval⟩ := natToString_spec s
  have hstrip := stripZeros_append (natToString s)
  have hle : (stripZeros (natToString s)).length ≤ (natToString s).length := by
    have := congrArg List.length hstrip
    rw [List.length_append] at this
    omega
  refine ⟨ds ++ List.replicate j 0, ?_, ?_, by simp [hdne], ?_⟩
  · rw [h1, h2, formatDigits_plain _ _ (by omega) (by omega)]
    have hz : (((natToString s).length : Int) + (j : Int) -
        ((stripZeros (natToString s)).length : Int)).toNat =
        ((natToString s).length - (stripZeros (natToString s)).length) + j := by omega
    rw [hz, List.replicate_add, ← List.append_assoc, ← hstrip, hds, List.map_append,
      List.map_replicate]
    rfl
  · intro d hd2
    rcases List.mem_append.mp hd2 with h | h
    · exact hdlt d h
    · rw [(List.mem_replicate.mp h).2]; norm_num
  · rw [ofDigits_append_zeros, hdval, roundDecimal_scale s j hs0 hj, hround]

/-! ## Reading the text of an id back -/

theorem numberToString_fin (q : ℚ) :
    numberToString (JSNumber.fin q) =
      if q = 0 then ['0']
      else if q < 0 then '-' :: formatDigits (shortestDigits (-q)).1 (shortestDigits (-q)).2
      else formatDigits (shortestDigits q).1 (shortestDigits q).2 := rfl

theorem neg_fin (q : ℚ) : -(JSNumber.fin q) = JSNumber.fin (-q) := rfl

theorem parseInt_numberToString (id : Int) (hlt : id.natAbs < 10 ^ 21)
    (hd : roundDecimal id.natAbs 0 = JSNumber.fin (id.natAbs : ℚ)) :
    parseInt (numberToString (JSNumber.fin (id : ℚ))) = JSNumber.fin (id : ℚ) := by
  rcases lt_trichotomy id 0 with hneg | hzero | hpos
  · have hm : 0 < id.natAbs := Int.natAbs_pos.mpr (by omega)
    obtain ⟨ds, htext, h1, h2, h3⟩ := numberToString_nat id.natAbs hm hlt hd
    have hq : -(id : ℚ) = (id.natAbs : ℚ) := by
      have : (id.natAbs : Int) = -id := by omega
      rw [← Int.cast_natCast, this, Int.cast_neg]
    have hq0 : ¬ (id : ℚ) = 0 := by
      intro h
      have : id = 0 := by exact_mod_cast h
      omega
    have hqneg : (id : ℚ) < 0 := by exact_mod_cast hneg
    rw [numberToString_fin, if_neg hq0, if_pos hqneg, hq, htext]
    have key := parseInt_natDigits ds h1 h2 true
    simp only [if_true, List.singleton_append] at key
    rw [key, h3, neg_fin, ← hq, neg_neg]
  · subst hzero
    simp only [Int.cast_zero, numberToString_fin, if_true]
    decide!
  · have hm : 0 < id.natAbs := Int.natAbs_pos.mpr (by omega)
    obtain ⟨ds, htext, h1, h2, h3⟩ := numberToString_nat id.natAbs hm hlt hd
    have hq : (id : ℚ) = (id.natAbs : ℚ) := by
      have : (id.natAbs : Int) = id := by omega
      rw [← Int.cast_natCast, this]
    have hq0 : ¬ (id : ℚ) = 0 := by
      intro h
      have : id = 0 := by exact_mod_cast h
      omega
    have hqneg : ¬ (id : ℚ) < 0 := by
      have : (0 : ℚ) < (id : ℚ) := by exact_mod_cast hpos
      exact not_lt.mpr (le_of_lt this)
    rw [numberToString_fin, if_neg hq0, if_neg hqneg, hq, htext]
    have key := parseInt_natDigits ds h1 h2 false
    simp only [Bool.false_eq_true, if_false, List.nil_append] at key
    rw [key, h3]

theorem bitLengthAux_spec (fuel : Nat) : ∀ n : Nat, 0 < n → n ≤ fuel →
    2 ^ (bitLengthAux fuel n - 1) ≤ n ∧ n < 2 ^ bitLengthAux fuel n ∧ 0 < bitLengthAux fuel n := by
  induction fuel with
  | zero => intro n h1 h2; omega
  | succ fuel ih =>
    intro n h1 h2
    unfold bitLengthAux
    rw [if_neg (by omega)]
    by_cases h : n / 2 = 0
    · have hn : n = 1 := by omega
      subst hn
      cases fuel <;> simp [bitLengthAux]
    · obtain ⟨h3, h4, h5⟩ := ih (n / 2) (by omega) (by omega)
      refine ⟨?_, ?_, by omega⟩
      · have : bitLengthAux fuel (n / 2) + 1 - 1 = (bitLengthAux fuel (n / 2) - 1) + 1 := by omega
        rw [this, pow_succ]
        omega
      · rw [pow_succ]
        omega

theorem bitLength_spec (n : Nat) (h : 0 < n) :
    2 ^ (bitLength n - 1) ≤ n ∧ n < 2 ^ bitLength n ∧ 0 < bitLength n :=
  bitLengthAux_spec n n h (le_refl n)

theorem roundPositive_exact (n : Nat) (h0 : 0 < n) (h : n < 2 ^ 53) :
    roundPositive n 1 = JSNumber.fin (n : ℚ) := by
  obtain ⟨h1, h2, h3⟩ := bitLength_spec n h0
  have hb1 : bitLength 1 = 1 := by decide
  have hle : bitLength n ≤ 53 := by
    by_contra hcon
    have : 2 ^ 53 ≤ 2 ^ (bitLength n - 1) := Nat.pow_le_pow_right (by norm_num) (by omega)
    omega
  obtain ⟨b, hb⟩ : ∃ b, bitLength n = b + 1 := ⟨bitLength n - 1, by omega⟩
  rw [hb] at h1 h2
  simp only [Nat.add_sub_cancel] at h1
  unfold roundPositive
  simp only [hb1, hb]
  have e0 : ((b + 1 : Nat) : Int) - ((1 : Nat) : Int) = (b : Int) := by push_cast; ring
  rw [e0]
  have hnn : (0 : Int) ≤ (b : Int) := by omega
  simp only [hnn, if_true, Int.toNat_ofNat, one_mul, h1, decide_True]
  have hmax : max (b : Int) (-1022) = (b : Int) := max_eq_left (by omega)
  rw [hmax]
  by_cases hp : (0 : Int) ≤ (b : Int) - 52
  · have hbz : (b : Int) - 52 = 0 := by omega
    have hpow : (2 : Nat) ^ 53 ≤ 2 ^ 1024 := by
      apply Nat.pow_le_pow_right <;> decide
    have hlarge : ¬ (2 ^ 1024 ≤ n) := by omega
    rw [hbz]
    simp only [le_refl, if_true, Int.toNat_zero, pow_zero, mul_one, Nat.div_one, Nat.mod_one,
      mul_zero, Nat.not_lt_zero, false_or, zero_ne_one, false_and, if_false, hlarge]
  · simp only [hp, if_false]
    have hq : (Nat.cast (R := ℚ) 2) ^ (-((b : Int) - 52)).toNat ≠ 0 := by positivity
    simp only [Nat.div_one, Nat.mod_one, mul_zero, Nat.not_lt_zero, false_or, one_ne_zero,
      OfNat.zero_ne_ofNat, false_and, if_false]
    congr 1
    rw [Rat.mkRat_eq_div]
    push_cast
    field_simp

theorem roundDecimal_exact (n : Nat) (h : n < 2 ^ 53) :
    roundDecimal n 0 = JSNumber.fin (n : ℚ) := by
  rcases Nat.eq_zero_or_pos n with h0 | h0
  · subst h0
    simp [roundDecimal]
  · unfold roundDecimal
    have h4 : ¬ ((0 : Int) + ((natToString n).length : Int) ≤ -330) := by omega
    rw [if_neg (by omega), if_neg (by norm_num), if_neg h4, if_pos (le_refl _)]
    simp only [Int.toNat_zero, pow_zero, mul_one]
    exact roundPositive_exact n h0 h

/-! ## Arithmetic and order of numbers -/

theorem number_add_assoc (a b c : JSNumber) : a + b + c = a + (b + c) := by
  cases a <;> cases b <;> cases c <;>
    first
    | rfl
    | exact congrArg JSNumber.fin (add_assoc _ _ _)

theorem number_zero_add (a : JSNumber) : 0 + a = a := by
  cases a with
  | fin q => exact congrArg JSNumber.fin (zero_add q)
  | _ => rfl

theorem number_add_zero (a : JSNumber) : a + 0 = a := by
  cases a with
  | fin q => exact congrArg JSNumber.fin (add_zero q)
  | _ => rfl

theorem number_pos_iff (a : JSNumber) :
    0 < a ↔ ¬ (a.isNaN = true ∨ a ≤ 0) := by
  cases a with
  | nan => exact ⟨fun h => (by cases h), fun h => absurd (Or.inl rfl) h⟩
  | posInf => exact ⟨fun _ h => (by rcases h with h | h <;> cases h), fun _ => rfl⟩
  | negInf => exact ⟨fun h => (by cases h), fun h => absurd (Or.inr rfl) h⟩
  | fin q =>
    have h1 : (0 < JSNumber.fin q) ↔ (0 : ℚ) < q := by
      show (decide ((0 : ℚ) < q) = true) ↔ _
      simp
    have h2 : (JSNumber.fin q ≤ 0) ↔ q ≤ (0 : ℚ) := by
      show (decide (q ≤ (0 : ℚ)) = true) ↔ _
      simp
    rw [h1, h2]
    constructor
    · rintro h (h3 | h3)
      · cases h3
      · exact absurd h (not_lt.mpr h3)
    · intro h
      exact not_le.mp (fun h3 => h (Or.inr h3))

/-! ## What the handlers do to the ledger, the cookie and the alerts -/

theorem renderTransactions_fields (app : App) :
    (renderTransactions app).transactions = app.transactions ∧
      (renderTransactions app).cookieWrites = app.cookieWrites ∧
      (renderTransactions app).alerts = app.alerts ∧
      (renderTransactions app).filterValue = app.filterValue := by
  unfold renderTransactions
  by_cases h : (app.transactions.filter (matchesFilter app.filterValue)).length = 0
  · simp only [h, if_true, and_self]
  · simp only [h, if_false, and_self]

theorem renderTransactions_list (app : App) :
    (renderTransactions app).transactionList =
      if app.transactions.filter (matchesFilter app.filterValue) = [] then [ListEntry.placeholder]
      else (app.transactions.filter (matchesFilter app.filterValue)).map listItem := by
  unfold renderTransactions
  by_cases h : app.transactions.filter (matchesFilter app.filterValue) = []
  · simp only [h, List.length_nil, if_true]
  · simp only [List.length_eq_zero, h, if_false]

theorem handleAddTransaction_of_valid (now : Int) (expires : Str) (app : App)
    (hdesc : trim app.descriptionValue ≠ []) (hpos : 0 < parseFloat app.amountValue) :
    (handleAddTransaction now expires app).transactions =
      app.transactions ++ [{ id := generateId now, type := app.typeValue,
                             description := trim app.descriptionValue,
                             amount := parseFloat app.amountValue }] := by
  have hnot := (number_pos_iff _).mp hpos
  unfold handleAddTransaction
  simp only
  rw [if_neg (by
    rintro (h | h)
    · exact hdesc h
    · exact hnot h)]
  simp only [updateSummary, (renderTransactions_fields _).1, saveTransactionsToCookies]

theorem handleAddTransaction_of_invalid (now : Int) (expires : Str) (app : App)
    (h : trim app.descriptionValue = [] ∨ (parseFloat app.amountValue).isNaN = true ∨
      parseFloat app.amountValue ≤ 0) :
    handleAddTransaction now expires app =
      { app with alerts := app.alerts ++ [validationMessage] } := by
  unfold handleAddTransaction
  simp only
  rw [if_pos h]

theorem fin_intCast_ne (a b : Int) :
    (JSNumber.fin (a : ℚ) ≠ JSNumber.fin (b : ℚ)) ↔ a ≠ b := by
  constructor
  · intro h e
    exact h (by rw [e])
  · intro h e
    exact h (by exact_mod_cast JSNumber.fin.inj e)

theorem handleDeleteTransaction_of_deleteButton (expires : Str) (id : Int) (app : App)
    (hlt : id.natAbs < 10 ^ 21)
    (hd : roundDecimal id.natAbs 0 = JSNumber.fin (id.natAbs : ℚ)) :
    (handleDeleteTransaction expires (deleteButton id) app).transactions =
      app.transactions.filter (fun t => t.id ≠ id) := by
  unfold handleDeleteTransaction
  rw [if_pos (by simp [deleteButton])]
  simp only [updateSummary, (renderTransactions_fields _).1, saveTransactionsToCookies,
    deleteButton, parseInt_numberToString id hlt hd]
  congr 1
  funext t
  exact decide_eq_decide.mpr (fin_intCast_ne t.id id)

theorem handleDeleteTransaction_sublist (expires : Str) (target : Target) (app : App) :
    ∃ keep : Transaction → Bool,
      (handleDeleteTransaction expires target app).transactions = app.transactions.filter keep := by
  unfold handleDeleteTransaction
  split
  · simp only [updateSummary, (renderTransactions_fields _).1, saveTransactionsToCookies]
    exact ⟨_, rfl⟩
  · exact ⟨fun _ => true, by simp⟩

theorem foldl_add_amount (l : List Transaction) (init : JSNumber) :
    l.foldl (fun acc t => acc + t.amount) init = init + (l.map Transaction.amount).sum := by
  induction l generalizing init with
  | nil => exact (number_add_zero init).symm
  | cons t l ih =>
    rw [List.foldl_cons, ih, List.map_cons, List.sum_cons, number_add_assoc]

theorem updateSummary_values (app : App) :
    (updateSummary app).totalIncome =
        ((app.transactions.filter (fun t => t.type = "income".toList)).map
          Transaction.amount).sum ∧
      (updateSummary app).totalExpenses =
        ((app.transactions.filter (fun t => t.type = "expense".toList)).map
          Transaction.amount).sum ∧
      (updateSummary app).balance =
        (updateSummary app).totalIncome - (updateSummary app).totalExpenses := by
  simp only [updateSummary, foldl_add_amount, number_zero_add, and_self]

theorem step_submit_of_valid (app : App) (typeValue descriptionValue amountValue : Str)
    (now : Int) (expires : Str) (hdesc : trim descriptionValue ≠ [])
    (hpos : 0 < parseFloat amountValue) :
    (step app (Action.submit typeValue descriptionValue amountValue now expires)).transactions =
      app.transactions ++ [{ id := generateId now, type := typeValue,
                             description := trim descriptionValue,
                             amount := parseFloat amountValue }] :=
  handleAddTransaction_of_valid now expires
    { app with typeValue := typeValue, descriptionValue := descriptionValue,
               amountValue := amountValue } hdesc hpos

theorem trim_salary : trim "Salary".toList = "Salary".toList := by decide

theorem trim_rent : trim "Rent".toList = "Rent".toList := by decide

theorem parseFloat_salary : parseFloat "1000.00".toList = 1000 := by decide!

theorem parseFloat_rent : parseFloat "400.00".toList = 400 := by decide!

theorem pos_salary : (0 : JSNumber) < parseFloat "1000.00".toList := by
  rw [parseFloat_salary]; decide!

theorem pos_rent : (0 : JSNumber) < parseFloat "400.00".toList := by
  rw [parseFloat_rent]; decide!

theorem run_two (app : App) (a b : Action) : run app [a, b] = step (step app a) b := rfl

theorem run_salary_rent (app : App) (now1 now2 : Int) (e1 e2 : Str) :
    (run app [submitSalary now1 e1, submitRent now2 e2]).transactions =
      app.transactions ++ [salaryRecord now1, rentRecord now2] := by
  have hs := step_submit_of_valid app "income".toList "Salary".toList "1000.00".toList now1 e1
    (by rw [trim_salary]; exact List.cons_ne_nil _ _) pos_salary
  have hr := step_submit_of_valid (step app (submitSalary now1 e1)) "expense".toList
    "Rent".toList "400.00".toList now2 e2
    (by rw [trim_rent]; exact List.cons_ne_nil _ _) pos_rent
  rw [trim_rent, parseFloat_rent] at hr
  rw [trim_salary, parseFloat_salary] at hs
  rw [run_two, submitRent, hr, submitSalary, hs, List.append_assoc]
  rfl

theorem handleAddTransaction_summary (now : Int) (expires : Str) (app : App)
    (hdesc : trim app.descriptionValue ≠ []) (hpos : 0 < parseFloat app.amountValue) :
    (handleAddTransaction now expires app).totalIncome =
        (((handleAddTransaction now expires app).transactions.filter
          (fun t => t.type = "income".toList)).map Transaction.amount).sum ∧
      (handleAddTransaction now expires app).totalExpenses =
        (((handleAddTransaction now expires app).transactions.filter
          (fun t => t.type = "expense".toList)).map Transaction.amount).sum ∧
      (handleAddTransaction now expires app).balance =
        (handleAddTransaction now expires app).totalIncome -
          (handleAddTransaction now expires app).totalExpenses := by
  have hnot := (number_pos_iff _).mp hpos
  unfold handleAddTransaction
  simp only
  rw [if_neg (by
    rintro (h | h)
    · exact hdesc h
    · exact hnot h)]
  exact updateSummary_values _

theorem filter_ne_length (l : List Transaction) (id : Int) :
    (l.filter (fun t => t.id ≠ id)).length + l.countP (fun t => t.id = id) = l.length := by
  induction l with
  | nil => rfl
  | cons t l ih =>
    by_cases h : t.id = id
    · simp only [h, ne_eq, not_true_eq_false, decide_False, Bool.false_eq_true,
        not_false_eq_true, List.filter_cons_of_neg, decide_True, List.countP_cons_of_pos,
        List.length_cons]
      simp only [ne_eq] at ih
      omega
    · simp only [ne_eq, h, not_false_eq_true, decide_True, List.filter_cons_of_pos,
        List.length_cons, decide_False, Bool.false_eq_true, List.countP_cons_of_neg]
      simp only [ne_eq] at ih
      omega

theorem step_submit (app : App) (typeValue descriptionValue amountValue : Str) (now : Int)
    (expires : Str) :
    step app (Action.submit typeValue descriptionValue amountValue now expires) =
      handleAddTransaction now expires
        { app with typeValue := typeValue, descriptionValue := descriptionValue,
                   amountValue := amountValue } := rfl

/-! ## Equality tests are sound -/

mutual
theorem same_sound : ∀ a b : JVal, JVal.same a b = true → a = b
  | JVal.null, JVal.null, _ => rfl
  | JVal.bool a, JVal.bool b, h => by
    simp only [JVal.same, decide_eq_true_eq] at h
    rw [h]
  | JVal.num a, JVal.num b, h => by
    simp only [JVal.same, decide_eq_true_eq] at h
    rw [h]
  | JVal.str a, JVal.str b, h => by
    simp only [JVal.same, decide_eq_true_eq] at h
    rw [h]
  | JVal.arr a, JVal.arr b, h => by
    simp only [JVal.same] at h
    rw [sameItems_sound a b h]
  | JVal.obj a, JVal.obj b, h => by
    simp only [JVal.same] at h
    rw [sameMembers_sound a b h]
  | JVal.null, JVal.bool _, h => by simp [JVal.same] at h
  | JVal.null, JVal.num _, h => by simp [JVal.same] at h
  | JVal.null, JVal.str _, h => by simp [JVal.same] at h
  | JVal.null, JVal.arr _, h => by simp [JVal.same] at h
  | JVal.null, JVal.obj _, h => by simp [JVal.same] at h
  | JVal.bool _, JVal.null, h => by simp [JVal.same] at h
  | JVal.bool _, JVal.num _, h => by simp [JVal.same] at h
  | JVal.bool _, JVal.str _, h => by simp [JVal.same] at h
  | JVal.bool _, JVal.arr _, h => by simp [JVal.same] at h
  | JVal.bool _, JVal.obj _, h => by simp [JVal.same] at h
  | JVal.num _, JVal.null, h => by simp [JVal.same] at h
  | JVal.num _, JVal.bool _, h => by simp [JVal.same] at h
  | JVal.num _, JVal.str _, h => by simp [JVal.same] at h
  | JVal.num _, JVal.arr _, h => by simp [JVal.same] at h
  | JVal.num _, JVal.obj _, h => by simp [JVal.same] at h
  | JVal.str _, JVal.null, h => by simp [JVal.same] at h
  | JVal.str _, JVal.bool _, h => by simp [JVal.same] at h
  | JVal.str _, JVal.num _, h => by simp [JVal.same] at h
  | JVal.str _, JVal.arr _, h => by simp [JVal.same] at h
  | JVal.str _, JVal.obj _, h => by simp [JVal.same] at h
  | JVal.arr _, JVal.null, h => by simp [JVal.same] at h
  | JVal.arr _, JVal.bool _, h => by simp [JVal.same] at h
  | JVal.arr _, JVal.num _, h => by simp [JVal.same] at h
  | JVal.arr _, JVal.str _, h => by simp [JVal.same] at h
  | JVal.arr _, JVal.obj _, h => by simp [JVal.same] at h
  | JVal.obj _, JVal.null, h => by simp [JVal.same] at h
  | JVal.obj _, JVal.bool _, h => by simp [JVal.same] at h
  | JVal.obj _, JVal.num _, h => by simp [JVal.same] at h
  | JVal.obj _, JVal.str _, h => by simp [JVal.same] at h
  | JVal.obj _, JVal.arr _, h => by simp [JVal.same] at h
theorem sameItems_sound : ∀ a b : List JVal, JVal.sameItems a b = true → a = b
  | [], [], _ => rfl
  | a :: as, b :: bs, h => by
    simp only [JVal.sameItems, Bool.and_eq_true] at h
    rw [same_sound a b h.1, sameItems_sound as bs h.2]
  | [], _ :: _, h => by simp [JVal.sameItems] at h
  | _ :: _, [], h => by simp [JVal.sameItems] at h
theorem sameMembers_sound : ∀ a b : List (Str × JVal), JVal.sameMembers a b = true → a = b
  | [], [], _ => rfl
  | (j, a) :: as, (k, b) :: bs, h => by
    simp only [JVal.sameMembers, Bool.and_eq_true, decide_eq_true_eq] at h
    rw [h.1.1, same_sound a b h.1.2, sameMembers_sound as bs h.2]
  | [], _ :: _, h => by simp [JVal.sameMembers] at h
  | _ :: _, [], h => by simp [JVal.sameMembers] at h
end

theorem sameResult_sound (a b : Except JSError JVal) (h : sameResult a b = true) : a = b := by
  cases a with
  | ok x =>
    cases b with
    | ok y => rw [same_sound x y h]
    | error e => simp [sameResult] at h
  | error d =>
    cases b with
    | ok y => simp [sameResult] at h
    | error e =>
      simp only [sameResult, decide_eq_true_eq] at h
      rw [h]

theorem load_five :
    loadTransactionsFromCookies "transactions=5".toList = Except.ok (JVal.num 5) :=
  sameResult_sound _ _ (by decide!)

theorem load_object :
    loadTransactionsFromCookies "transactions=\x7b\"a\":1\x7d".toList =
      Except.ok (JVal.obj [("a".toList, JVal.num 1)]) :=
  sameResult_sound _ _ (by decide!)

theorem load_mixed_array :
    loadTransactionsFromCookies "transactions=[1,\"x\"]".toList =
      Except.ok (JVal.arr [JVal.num 1, JVal.str "x".toList]) :=
  sameResult_sound _ _ (by decide!)

theorem load_negativeCookie :
    loadTransactionsFromCookies negativeCookie = Except.ok (ledgerJSON negativeLedger) :=
  sameResult_sound _ _ (by decide!)

theorem stringify_semicolonLedger :
    "transactions=".toList ++ JSON.stringify (ledgerJSON semicolonLedger) =
      semicolonHead ++ ';' :: semicolonTail := by
  decide!

theorem parse_semicolonHead :
    JSON.parse (substring (trim semicolonHead) "transactions=".toList.length) =
      Except.error JSError.syntaxError :=
  sameResult_sound _ _ (by decide!)

theorem deleteButton_exponent :
    (deleteButton (10 ^ 21)).dataId = some "1e+21".toList := by
  decide!

theorem parseInt_exponent : parseInt "1e+21".toList = 1 := by
  decide!

/-! ## The claims about adding, deleting, listing and summarising -/

/-- C2: a submission with a non-empty trimmed description and an amount that
`parseFloat` reads as a number greater than 0 (a positive double, or `Infinity`)
appends exactly one record, built from the submitted type, the trimmed
description, the number read and the id of `generateId`, after the records
already present, which stay as they were. -/
theorem handleAddTransaction_appends (now : Int) (expires : Str) (app : App)
    (hdesc : trim app.descriptionValue ≠ []) (hpos : 0 < parseFloat app.amountValue) :
    (handleAddTransaction now expires app).transactions =
        app.transactions ++ [{ id := generateId now, type := app.typeValue,
                               description := trim app.descriptionValue,
                               amount := parseFloat app.amountValue }] ∧
      (handleAddTransaction now expires app).transactions.length =
        app.transactions.length + 1 ∧
      (handleAddTransaction now expires app).transactions.take app.transactions.length =
        app.transactions ∧
      (handleAddTransaction now expires app).transactions.getLast? =
        some { id := generateId now, type := app.typeValue,
               description := trim app.descriptionValue,
               amount := parseFloat app.amountValue } := by
  rw [handleAddTransaction_of_valid now expires app hdesc hpos]
  simp

/-- C3: a submission whose trimmed description is empty, or whose amount reads
as `NaN`, or whose amount reads as a number that is at most 0, shows the
validation alert and changes nothing else: same ledger, no text written to the
cookie. -/
theorem handleAddTransaction_rejects (now : Int) (expires : Str) (app : App)
    (h : trim app.descriptionValue = [] ∨ (parseFloat app.amountValue).isNaN = true ∨
      parseFloat app.amountValue ≤ 0) :
    handleAddTransaction now expires app =
        { app with alerts := app.alerts ++ [validationMessage] } ∧
      (handleAddTransaction now expires app).alerts = app.alerts ++ [validationMessage] ∧
      (handleAddTransaction now expires app).transactions = app.transactions ∧
      (handleAddTransaction now expires app).transactions.length = app.transactions.length ∧
      (handleAddTransaction now expires app).cookieWrites = app.cookieWrites := by
  rw [handleAddTransaction_of_invalid now expires app h]
  exact ⟨rfl, rfl, rfl, rfl, rfl⟩

/-- C4, as the code has it: for an id that is a JavaScript number (an integer a
double holds exactly) of magnitude below `10 ^ 21`, a click on the delete button
of that id leaves exactly the records whose id differs from it, in their order;
the length drops by the number of records with that id, which is at least 1 when
the id is present, and the ledger is unchanged when it is absent. -/
theorem handleDeleteTransaction_removes (expires : Str) (id : Int) (app : App)
    (hlt : id.natAbs < 10 ^ 21)
    (hd : roundDecimal id.natAbs 0 = JSNumber.fin (id.natAbs : ℚ)) :
    (handleDeleteTransaction expires (deleteButton id) app).transactions =
        app.transactions.filter (fun t => t.id ≠ id) ∧
      (handleDeleteTransaction expires (deleteButton id) app).transactions.Sublist
        app.transactions ∧
      (handleDeleteTransaction expires (deleteButton id) app).transactions.length +
          app.transactions.countP (fun t => t.id = id) = app.transactions.length ∧
      ((∃ t ∈ app.transactions, t.id = id) →
        1 ≤ app.transactions.countP (fun t => t.id = id)) ∧
      ((∀ t ∈ app.transactions, t.id ≠ id) →
        (handleDeleteTransaction expires (deleteButton id) app).transactions =
          app.transactions) := by
  rw [handleDeleteTransaction_of_deleteButton expires id app hlt hd]
  refine ⟨rfl, List.filter_sublist _, ?_, ?_, ?_⟩
  · exact filter_ne_length _ _
  · rintro ⟨t, ht, hid⟩
    exact List.countP_pos_iff.mpr ⟨t, ht, by simpa using hid⟩
  · intro h
    exact List.filter_eq_self.mpr (fun t ht => by simpa using h t ht)

/-- C4 fails as stated: the id `10 ^ 21` is printed `1e+21` in the `data-id` of
its delete button, and `parseInt` reads that text as 1.  On the ledger with the
ids `10 ^ 21` and 1, the click on the button of the first record removes the
second record and keeps the first. -/
theorem delete_button_of_exponent_id :
    (deleteButton (10 ^ 21)).dataId = some "1e+21".toList ∧
      parseInt "1e+21".toList = 1 ∧
      (handleDeleteTransaction [] (deleteButton (10 ^ 21)) (initialApp exponentLedger)).transactions =
        [{ id := 10 ^ 21, type := "income".toList, description := "a".toList, amount := 5 }] ∧
      (handleDeleteTransaction [] (deleteButton (10 ^ 21)) (initialApp exponentLedger)).transactions ≠
        (initialApp exponentLedger).transactions.filter (fun t => t.id ≠ 10 ^ 21) := by
  have h : (handleDeleteTransaction [] (deleteButton (10 ^ 21))
      (initialApp exponentLedger)).transactions =
      [{ id := 10 ^ 21, type := "income".toList, description := "a".toList, amount := 5 }] := by
    decide!
  refine ⟨deleteButton_exponent, parseInt_exponent, h, ?_⟩
  rw [h]
  decide!

/-- C5: the summary holds the sum of the income amounts, the sum of the expense
amounts and their difference; after adding income 1000.00 and expense 400.00 to
an empty ledger it is 1000, 400 and 600. -/
theorem updateSummary_totals :
    (∀ app : App,
      (updateSummary app).totalIncome =
          ((app.transactions.filter (fun t => t.type = "income".toList)).map
            Transaction.amount).sum ∧
        (updateSummary app).totalExpenses =
          ((app.transactions.filter (fun t => t.type = "expense".toList)).map
            Transaction.amount).sum ∧
        (updateSummary app).balance =
          (updateSummary app).totalIncome - (updateSummary app).totalExpenses) ∧
      (∀ (now1 now2 : Int) (e1 e2 : Str),
        (run (initialApp []) [submitSalary now1 e1, submitRent now2 e2]).totalIncome = 1000 ∧
        (run (initialApp []) [submitSalary now1 e1, submitRent now2 e2]).totalExpenses = 400 ∧
        (run (initialApp []) [submitSalary now1 e1, submitRent now2 e2]).balance = 600) := by
  refine ⟨updateSummary_values, ?_⟩
  intro now1 now2 e1 e2
  have ht := run_salary_rent (initialApp []) now1 now2 e1 e2
  have hs := handleAddTransaction_summary now2 e2
    { step (initialApp []) (submitSalary now1 e1) with
      typeValue := "expense".toList, descriptionValue := "Rent".toList,
      amountValue := "400.00".toList }
    (by rw [trim_rent]; exact List.cons_ne_nil _ _) pos_rent
  have hrun : run (initialApp []) [submitSalary now1 e1, submitRent now2 e2] =
      handleAddTransaction now2 e2
        { step (initialApp []) (submitSalary now1 e1) with
          typeValue := "expense".toList, descriptionValue := "Rent".toList,
          amountValue := "400.00".toList } := by
    rw [run_two, submitRent, step_submit]
  rw [← hrun, ht] at hs
  have h0 : (initialApp []).transactions = [] := rfl
  have hi : ((([] : List Transaction) ++ [salaryRecord now1, rentRecord now2]).filter
      (fun t => t.type = "income".toList)) = [salaryRecord now1] := by
    simp [salaryRecord, rentRecord]
  have he : ((([] : List Transaction) ++ [salaryRecord now1, rentRecord now2]).filter
      (fun t => t.type = "expense".toList)) = [rentRecord now2] := by
    simp [salaryRecord, rentRecord]
  rw [h0, hi, he] at hs
  obtain ⟨h1, h2, h3⟩ := hs
  rw [h3, h1, h2]
  simp only [List.map_cons, List.map_nil, List.sum_cons, List.sum_nil, salaryRecord,
    rentRecord]
  decide!

theorem filter_matchesFilter (filterValue : Str) (ledger : List Transaction) :
    ledger.filter (matchesFilter filterValue) = listView filterValue ledger := by
  unfold listView
  by_cases h : filterValue = "all".toList
  · rw [if_pos h]
    exact List.filter_eq_self.mpr (fun t _ => by simp [matchesFilter, h])
  · rw [if_neg h]
    congr 1
    funext t
    simp only [matchesFilter, if_neg h]

theorem listView_sublist (filterValue : Str) (ledger : List Transaction) :
    (listView filterValue ledger).Sublist ledger := by
  rw [← filter_matchesFilter]
  exact List.filter_sublist _

theorem handleFilterChange_list (value : Str) (app : App) :
    (handleFilterChange value app).transactionList =
      if listView value app.transactions = [] then [ListEntry.placeholder]
      else (listView value app.transactions).map listItem := by
  unfold handleFilterChange
  rw [renderTransactions_list]
  simp only [filter_matchesFilter]

theorem listView_expense_salary_rent (now1 now2 : Int) :
    listView "expense".toList [salaryRecord now1, rentRecord now2] = [rentRecord now2] := by
  simp [listView, salaryRecord, rentRecord]

/-- C7: the list `renderTransactions` shows is built from the records the filter
selects, in ledger order: all of them for `all`, those of the filter's type
otherwise (a placeholder line when there is none); the ledger is left as it was.
After adding income Salary and expense Rent, the filter `expense` selects
exactly the Rent record. -/
theorem renderTransactions_shows_filtered :
    (∀ app : App,
      (app.filterValue = "all".toList → listView app.filterValue app.transactions =
        app.transactions) ∧
      (app.filterValue = "income".toList ∨ app.filterValue = "expense".toList →
        listView app.filterValue app.transactions =
          app.transactions.filter (fun t => t.type = app.filterValue)) ∧
      (renderTransactions app).transactionList =
        (if listView app.filterValue app.transactions = [] then [ListEntry.placeholder]
         else (listView app.filterValue app.transactions).map listItem) ∧
      (listView app.filterValue app.transactions).Sublist app.transactions ∧
      (renderTransactions app).transactions = app.transactions) ∧
    (∀ (now1 now2 : Int) (e1 e2 : Str),
      listView "expense".toList
          (run (initialApp []) [submitSalary now1 e1, submitRent now2 e2]).transactions =
        [rentRecord now2] ∧
      (handleFilterChange "expense".toList
          (run (initialApp []) [submitSalary now1 e1, submitRent now2 e2])).transactionList =
        [listItem (rentRecord now2)]) := by
  refine ⟨fun app => ⟨?_, ?_, ?_, listView_sublist _ _, (renderTransactions_fields app).1⟩, ?_⟩
  · intro h
    simp only [listView, h, if_true]
  · intro h
    have hne : app.filterValue ≠ "all".toList := by
      rcases h with h | h <;> rw [h] <;> decide
    simp only [listView, hne, if_false]
  · rw [renderTransactions_list, filter_matchesFilter]
  · intro now1 now2 e1 e2
    have ht := run_salary_rent (initialApp []) now1 now2 e1 e2
    have h0 : (initialApp []).transactions = [] := rfl
    rw [h0, List.nil_append] at ht
    rw [handleFilterChange_list, ht, listView_expense_salary_rent]
    exact ⟨rfl, rfl⟩

/-! ## Loading -/

theorem loadLoop_eq (pieces : List Str) :
    loadLoop pieces =
      match (pieces.map trim).find? (fun entry => startsWith entry "transactions=".toList) with
      | none => Except.ok (JVal.arr [])
      | some entry =>
        match JSON.parse (entry.drop 13) with
        | Except.ok value => Except.ok value
        | Except.error _ => Except.ok (JVal.arr []) := by
  induction pieces with
  | nil => rfl
  | cons piece rest ih =>
    unfold loadLoop
    by_cases h : startsWith (trim piece) "transactions=".toList = true
    · simp only [h, if_true, List.map_cons, List.find?_cons]
      rfl
    · have hf : startsWith (trim piece) "transactions=".toList = false := by simpa using h
      simp only [hf, if_false, List.map_cons, Bool.false_eq_true, List.find?_cons]
      exact ih

/-- C10: `loadTransactionsFromCookies` returns the empty array when no piece of
the cookie text between semicolons, once trimmed, starts with `transactions=`;
otherwise the first such piece alone decides: the value `JSON.parse` gives for
the text after `transactions=`, or the empty array when `JSON.parse` throws. -/
theorem loadTransactionsFromCookies_first_entry (documentCookie : Str) :
    loadTransactionsFromCookies documentCookie =
      match ((split ';' documentCookie).map trim).find?
          (fun entry => startsWith entry "transactions=".toList) with
      | none => Except.ok (JVal.arr [])
      | some entry =>
        match JSON.parse (entry.drop 13) with
        | Except.ok value => Except.ok value
        | Except.error _ => Except.ok (JVal.arr []) :=
  loadLoop_eq (split ';' documentCookie)

theorem loadLoop_cons_of_parse_error (piece : Str) (rest : List Str) (err : JSError)
    (h : startsWith (trim piece) "transactions=".toList = true)
    (hp : JSON.parse (substring (trim piece) "transactions=".toList.length) =
      Except.error err) :
    loadLoop (piece :: rest) = Except.ok (JVal.arr []) := by
  unfold loadLoop
  simp only [h, if_true, hp]

theorem split_append_sep (sep : Char) (pre post : Str) (h : sep ∉ pre) :
    split sep (pre ++ sep :: post) = pre :: split sep post := by
  induction pre with
  | nil => simp [split]
  | cons c cs ih =>
    have hc : c ≠ sep := fun e => h (e ▸ List.mem_cons_self _ _)
    have hcs : sep ∉ cs := fun m => h (List.mem_cons_of_mem _ m)
    rw [List.cons_append, split, if_neg hc, ih hcs]

theorem split_of_not_mem (sep : Char) (text : Str) (h : sep ∉ text) :
    split sep text = [text] := by
  induction text with
  | nil => rfl
  | cons c cs ih =>
    have hc : c ≠ sep := fun e => h (e ▸ List.mem_cons_self _ _)
    have hcs : sep ∉ cs := fun m => h (List.mem_cons_of_mem _ m)
    simp only [split, hc, if_false, ih hcs]

theorem ledgerJSON_ne_of_ne_nil (ledger : List Transaction) (h : ledger ≠ []) :
    ledgerJSON ledger ≠ JVal.arr [] := by
  intro e
  simp only [ledgerJSON, JVal.arr.injEq, List.map_eq_nil_iff] at e
  exact h e

/-- The load on its own never throws: it returns the empty array when the first
entry is malformed JSON, and the parsed value as it is, whatever its shape, when
the entry is well-formed JSON. -/
theorem loadTransactionsFromCookies_total (documentCookie : Str) :
    (∃ value, loadTransactionsFromCookies documentCookie = Except.ok value) ∧
      ∀ entry, ((split ';' documentCookie).map trim).find?
          (fun entry => startsWith entry "transactions=".toList) = some entry →
        (∀ err, JSON.parse (entry.drop 13) = Except.error err →
          loadTransactionsFromCookies documentCookie = Except.ok (JVal.arr [])) ∧
        (∀ value, JSON.parse (entry.drop 13) = Except.ok value →
          loadTransactionsFromCookies documentCookie = Except.ok value) := by
  unfold loadTransactionsFromCookies
  rw [loadLoop_eq]
  refine ⟨?_, ?_⟩
  · cases ((split ';' documentCookie).map trim).find?
        (fun entry => startsWith entry "transactions=".toList) with
    | none => exact ⟨_, rfl⟩
    | some entry =>
      cases hp : JSON.parse (entry.drop 13) with
      | ok value => exact ⟨value, by simp only [hp]⟩
      | error err => exact ⟨JVal.arr [], by simp only [hp]⟩
  · intro entry he
    rw [he]
    exact ⟨fun err hp => by simp only [hp], fun value hp => by simp only [hp]⟩

/-- C6 fails on the code: the stored texts `5`, `{"a":1}` and `[1,"x"]` are
well-formed JSON, none is a record sequence, and each is returned as parsed
instead of the empty array the claim and the docstring of the function promise.
With the number 5 or the object as `transactions`, the first render calls
`transactions.filter`, a `TypeError` that nothing catches. -/
theorem loadTransactionsFromCookies_returns_non_records :
    loadTransactionsFromCookies "transactions=5".toList = Except.ok (JVal.num 5) ∧
      loadTransactionsFromCookies "transactions=\x7b\"a\":1\x7d".toList =
        Except.ok (JVal.obj [("a".toList, JVal.num 1)]) ∧
      loadTransactionsFromCookies "transactions=[1,\"x\"]".toList =
        Except.ok (JVal.arr [JVal.num 1, JVal.str "x".toList]) ∧
      ¬ IsRecordSequence (JVal.num 5) ∧
      ¬ IsRecordSequence (JVal.obj [("a".toList, JVal.num 1)]) ∧
      ¬ IsRecordSequence (JVal.arr [JVal.num 1, JVal.str "x".toList]) ∧
      loadTransactionsFromCookies "transactions=5".toList ≠ Except.ok (JVal.arr []) ∧
      firstRenderReceiver "transactions=5".toList = Except.error JSError.typeError ∧
      firstRenderReceiver "transactions=\x7b\"a\":1\x7d".toList =
        Except.error JSError.typeError := by
  refine ⟨load_five, load_object, load_mixed_array, ?_, ?_, ?_, ?_, ?_, ?_⟩
  · rintro ⟨ledger, h⟩
    simp [ledgerJSON] at h
  · rintro ⟨ledger, h⟩
    simp [ledgerJSON] at h
  · rintro ⟨ledger, h⟩
    cases ledger with
    | nil => simp [ledgerJSON] at h
    | cons t rest => simp [ledgerJSON, Transaction.toJSON] at h
  · rw [load_five]
    simp
  · rw [firstRenderReceiver, load_five]
  · rw [firstRenderReceiver, load_object]

/-! ## Invariants of the ledger -/

theorem handleAddTransaction_cases (now : Int) (expires : Str) (app : App) :
    (handleAddTransaction now expires app).transactions = app.transactions ∨
      ∃ value : JSNumber, 0 < value ∧
        (handleAddTransaction now expires app).transactions =
          app.transactions ++ [{ id := generateId now, type := app.typeValue,
                                 description := trim app.descriptionValue, amount := value }] := by
  by_cases hd : trim app.descriptionValue = []
  · left
    rw [handleAddTransaction_of_invalid now expires app (Or.inl hd)]
  · by_cases hv : 0 < parseFloat app.amountValue
    · right
      exact ⟨_, hv, handleAddTransaction_of_valid now expires app hd hv⟩
    · left
      have hinv : (parseFloat app.amountValue).isNaN = true ∨ parseFloat app.amountValue ≤ 0 := by
        by_contra hcon
        exact hv ((number_pos_iff _).mpr hcon)
      rw [handleAddTransaction_of_invalid now expires app (Or.inr hinv)]

theorem step_positive (app : App) (action : Action)
    (h : ∀ t ∈ app.transactions, 0 < t.amount) :
    ∀ t ∈ (step app action).transactions, 0 < t.amount := by
  cases action with
  | submit typeValue descriptionValue amountValue now expires =>
    rw [step_submit]
    rcases handleAddTransaction_cases now expires
      { app with typeValue := typeValue, descriptionValue := descriptionValue,
                 amountValue := amountValue } with hc | ⟨value, hv, hc⟩
    · rw [hc]; exact h
    · rw [hc]
      intro t ht
      rcases List.mem_append.mp ht with ht | ht
      · exact h t ht
      · rw [List.mem_singleton] at ht
        rw [ht]
        exact hv
  | click target expires =>
    obtain ⟨keep, hk⟩ := handleDeleteTransaction_sublist expires target app
    intro t ht
    have ht2 : t ∈ (handleDeleteTransaction expires target app).transactions := ht
    rw [hk] at ht2
    exact h t (List.mem_of_mem_filter ht2)
  | pickFilter value =>
    intro t ht
    have ht2 : t ∈ (renderTransactions { app with filterValue := value }).transactions := ht
    rw [(renderTransactions_fields _).1] at ht2
    exact h t ht2

theorem run_positive (actions : List Action) : ∀ app : App,
    (∀ t ∈ app.transactions, 0 < t.amount) →
      ∀ t ∈ (run app actions).transactions, 0 < t.amount := by
  induction actions with
  | nil => intro app h; exact h
  | cons action rest ih =>
    intro app h
    exact ih (step app action) (step_positive app action h)

/-- C9, as the code has it: add and delete keep amounts positive.  In every
state reached by any sequence of submissions, clicks and filter changes from a
state whose records all have an amount greater than 0, every record has an
amount greater than 0. -/
theorem positive_amounts_preserved (app : App) (actions : List Action)
    (h : ∀ t ∈ app.transactions, 0 < t.amount) :
    ∀ t ∈ (run app actions).transactions, 0 < t.amount :=
  run_positive actions app h

/-- Witness of C9: from the page that starts with the Salary record, adding
Rent and deleting Salary. -/
theorem positive_amounts_preserved_witness :
    (∀ t ∈ (initialApp [salaryRecord 1]).transactions, 0 < t.amount) ∧
      ∀ t ∈ (run (initialApp [salaryRecord 1])
          [submitRent 2 [], Action.click (deleteButton 1) []]).transactions, 0 < t.amount :=
  have h : ∀ t ∈ (initialApp [salaryRecord 1]).transactions, 0 < t.amount := by
    intro t ht
    have ht2 : t ∈ [salaryRecord 1] := ht
    rw [List.mem_singleton] at ht2
    rw [ht2]
    decide!
  ⟨h, positive_amounts_preserved _ _ h⟩

/-- C9 fails as stated: the cookie text `negativeCookie` loads as the ledger
`negativeLedger`, so the page starts with a record of amount -5. -/
theorem startup_with_negative_amount :
    loadTransactionsFromCookies negativeCookie = Except.ok (ledgerJSON negativeLedger) ∧
      ¬ ∀ t ∈ (run (initialApp negativeLedger) []).transactions, 0 < t.amount := by
  refine ⟨load_negativeCookie, ?_⟩
  intro h
  have h1 := h { id := 1, type := "income".toList, description := "x".toList, amount := -5 }
    (List.mem_singleton.mpr rfl)
  exact absurd h1 (by decide!)

/-- C8 fails on the code: two valid submissions handled while the clock reads the
same millisecond get the same id, so the ledger holds two records with one id. -/
theorem generateId_repeats_within_millisecond (now : Int) (e1 e2 : Str) :
    (run (initialApp []) [submitSalary now e1, submitRent now e2]).transactions.map
        Transaction.id = [now, now] ∧
      ¬ ((run (initialApp []) [submitSalary now e1, submitRent now e2]).transactions.map
        Transaction.id).Nodup := by
  have ht := run_salary_rent (initialApp []) now now e1 e2
  have h0 : (initialApp []).transactions = [] := rfl
  rw [h0, List.nil_append] at ht
  rw [ht]
  simp [salaryRecord, rentRecord]

/-! ## Saving and loading again -/

theorem save_semicolonLedger (expires : Str) :
    (saveTransactionsToCookies expires (initialApp semicolonLedger)).cookieWrites =
      [semicolonHead ++ ';' :: (semicolonTail ++ (";expires=".toList ++ (expires ++
        ";path=/;SameSite=Lax".toList)))] := by
  have hc : (initialApp semicolonLedger).cookieWrites = [] := rfl
  have ht : (initialApp semicolonLedger).transactions = semicolonLedger := rfl
  unfold saveTransactionsToCookies
  simp only [hc, ht, List.nil_append]
  rw [stringify_semicolonLedger]
  simp only [List.append_assoc, List.cons_append]

theorem load_semicolonHead (rest : Str) :
    loadTransactionsFromCookies (semicolonHead ++ ';' :: rest) = Except.ok (JVal.arr []) := by
  unfold loadTransactionsFromCookies
  rw [split_append_sep ';' semicolonHead rest (by decide)]
  exact loadLoop_cons_of_parse_error semicolonHead _ _ (by decide) parse_semicolonHead

/-- C1 fails on the code: for the one-record ledger whose description is `a;b`,
the text `saveTransactionsToCookies` writes is cut at the semicolon when
`loadTransactionsFromCookies` splits it, the piece is not JSON, and the load
returns the empty array instead of the ledger. -/
theorem semicolon_ledger_lost (expires : Str) :
    ∃ text : Str,
      (saveTransactionsToCookies expires (initialApp semicolonLedger)).cookieWrites = [text] ∧
      text = "transactions=".toList ++ JSON.stringify (ledgerJSON semicolonLedger) ++
        ";expires=".toList ++ expires ++ ";path=/;SameSite=Lax".toList ∧
      loadTransactionsFromCookies text = Except.ok (JVal.arr []) ∧
      loadTransactionsFromCookies text ≠ Except.ok (ledgerJSON semicolonLedger) := by
  refine ⟨_, save_semicolonLedger expires, ?_, load_semicolonHead _, ?_⟩
  · rw [stringify_semicolonLedger]
    simp only [List.append_assoc, List.cons_append]
  · rw [load_semicolonHead]
    intro h
    exact ledgerJSON_ne_of_ne_nil semicolonLedger (List.cons_ne_nil _ _) (Except.ok.inj h).symm

/-! ## Ids under a clock that moves on -/

theorem step_ids_nodup (app : App) (action : Action)
    (hn : (app.transactions.map Transaction.id).Nodup) (hf : FreshClock app [action]) :
    ((step app action).transactions.map Transaction.id).Nodup := by
  cases action with
  | submit typeValue descriptionValue amountValue now expires =>
    have hlt : ∀ t ∈ app.transactions, t.id < now := hf.1
    rw [step_submit]
    rcases handleAddTransaction_cases now expires
      { app with typeValue := typeValue, descriptionValue := descriptionValue,
                 amountValue := amountValue } with hc | ⟨value, _, hc⟩
    · rw [hc]; exact hn
    · rw [hc, List.map_append, List.map_cons, List.map_nil]
      refine List.Nodup.append hn (List.nodup_singleton _) ?_
      intro i hi hi2
      rw [List.mem_singleton] at hi2
      obtain ⟨t, ht, rfl⟩ := List.mem_map.mp hi
      have := hlt t ht
      simp only [generateId] at hi2
      omega
  | click target expires =>
    obtain ⟨keep, hk⟩ := handleDeleteTransaction_sublist expires target app
    have hk2 : (step app (Action.click target expires)).transactions =
        app.transactions.filter keep := hk
    rw [hk2]
    exact hn.sublist ((List.filter_sublist _).map _)
  | pickFilter value =>
    have hk : (step app (Action.pickFilter value)).transactions = app.transactions :=
      (renderTransactions_fields _).1
    rw [hk]
    exact hn

theorem freshClock_cons (app : App) (action : Action) (rest : List Action)
    (h : FreshClock app (action :: rest)) :
    FreshClock app [action] ∧ FreshClock (step app action) rest := by
  cases action with
  | submit typeValue descriptionValue amountValue now expires => exact ⟨⟨h.1, trivial⟩, h.2⟩
  | click target expires => exact ⟨trivial, h⟩
  | pickFilter value => exact ⟨trivial, h⟩

theorem run_ids_nodup (actions : List Action) : ∀ app : App,
    (app.transactions.map Transaction.id).Nodup → FreshClock app actions →
      ((run app actions).transactions.map Transaction.id).Nodup := by
  induction actions with
  | nil => intro app hn _; exact hn
  | cons action rest ih =>
    intro app hn hf
    obtain ⟨h1, h2⟩ := freshClock_cons app action rest hf
    exact ih (step app action) (step_ids_nodup app action hn h1) h2

/-- Uniqueness where it holds: ids stay pairwise distinct along every sequence of
submissions, clicks and filter changes in which each submission is handled at a
clock reading above every id then in the ledger. -/
theorem ids_unique_of_freshClock (app : App) (actions : List Action)
    (hn : (app.transactions.map Transaction.id).Nodup) (hf : FreshClock app actions) :
    ((run app actions).transactions.map Transaction.id).Nodup :=
  run_ids_nodup actions app hn hf

theorem freshClock_salary_rent :
    FreshClock (initialApp []) [submitSalary 1 [], submitRent 2 []] := by
  have h : (step (initialApp []) (submitSalary 1 [])).transactions = [salaryRecord 1] := by
    have := step_submit_of_valid (initialApp []) "income".toList "Salary".toList
      "1000.00".toList 1 [] (by rw [trim_salary]; exact List.cons_ne_nil _ _) pos_salary
    rw [trim_salary, parseFloat_salary] at this
    exact this
  unfold submitRent
  unfold submitSalary at h ⊢
  refine ⟨fun t ht => absurd ht (List.not_mem_nil t), ⟨?_, trivial⟩⟩
  intro t ht
  rw [h, List.mem_singleton] at ht
  rw [ht]
  decide

/-- Distinct ids for Salary at clock 1, then Rent at clock 2. -/
theorem ids_unique_of_freshClock_witness :
    ((run (initialApp []) [submitSalary 1 [], submitRent 2 []]).transactions.map
      Transaction.id).Nodup :=
  ids_unique_of_freshClock (initialApp []) [submitSalary 1 [], submitRent 2 []]
    List.nodup_nil freshClock_salary_rent

/-! ## Witnesses -/

theorem trim_rent_spaced : trim " Rent ".toList = "Rent".toList := by decide

theorem parseFloat_infinity : parseFloat "Infinity".toList = JSNumber.posInf := by decide!

theorem parseFloat_tiny : parseFloat "1e-400".toList = 0 := by decide!

theorem parseFloat_long :
    parseFloat "12345678901234567890".toList = JSNumber.fin 12345678901234567168 := by decide!

/-- Witness of C2: on the page that starts with the Salary record, the form
holds type `expense`, description ` Rent ` and amount `400.00`, and then the
amount `Infinity`, which is a number greater than 0 as well. -/
theorem handleAddTransaction_appends_witness :
    (handleAddTransaction 7 []
        { initialApp [salaryRecord 1] with
          typeValue := "expense".toList, descriptionValue := " Rent ".toList,
          amountValue := "400.00".toList }).transactions =
      [salaryRecord 1, rentRecord 7] ∧
    (handleAddTransaction 7 []
        { initialApp [salaryRecord 1] with
          typeValue := "expense".toList, descriptionValue := " Rent ".toList,
          amountValue := "Infinity".toList }).transactions =
      [salaryRecord 1, { rentRecord 7 with amount := JSNumber.posInf }] := by
  have h1 := (handleAddTransaction_appends 7 []
    { initialApp [salaryRecord 1] with
      typeValue := "expense".toList, descriptionValue := " Rent ".toList,
      amountValue := "400.00".toList } (by decide) pos_rent).1
  have h2 := (handleAddTransaction_appends 7 []
    { initialApp [salaryRecord 1] with
      typeValue := "expense".toList, descriptionValue := " Rent ".toList,
      amountValue := "Infinity".toList } (by decide) (by decide!)).1
  rw [h1, h2]
  simp only [trim_rent_spaced, parseFloat_rent, parseFloat_infinity]
  exact ⟨rfl, rfl⟩

/-- Witness of C3: the scenario `add(expense, "", 10.00)` on the empty page, and
the amount `1e-400`, which reads as the number 0. -/
theorem handleAddTransaction_rejects_witness :
    ((handleAddTransaction 7 []
        { initialApp [] with
          typeValue := "expense".toList, descriptionValue := [],
          amountValue := "10.00".toList }).transactions = [] ∧
      (handleAddTransaction 7 []
        { initialApp [] with
          typeValue := "expense".toList, descriptionValue := [],
          amountValue := "10.00".toList }).cookieWrites = [] ∧
      (handleAddTransaction 7 []
        { initialApp [] with
          typeValue := "expense".toList, descriptionValue := [],
          amountValue := "10.00".toList }).alerts = [validationMessage]) ∧
    ((handleAddTransaction 7 []
        { initialApp [] with
          typeValue := "expense".toList, descriptionValue := "Rent".toList,
          amountValue := "1e-400".toList }).transactions = [] ∧
      (handleAddTransaction 7 []
        { initialApp [] with
          typeValue := "expense".toList, descriptionValue := "Rent".toList,
          amountValue := "1e-400".toList }).cookieWrites = [] ∧
      (handleAddTransaction 7 []
        { initialApp [] with
          typeValue := "expense".toList, descriptionValue := "Rent".toList,
          amountValue := "1e-400".toList }).alerts = [validationMessage]) := by
  have h := handleAddTransaction_rejects 7 []
    { initialApp [] with
      typeValue := "expense".toList, descriptionValue := [],
      amountValue := "10.00".toList } (Or.inl (by decide))
  have h2 := handleAddTransaction_rejects 7 []
    { initialApp [] with
      typeValue := "expense".toList, descriptionValue := "Rent".toList,
      amountValue := "1e-400".toList } (Or.inr (Or.inr (by decide!)))
  exact ⟨⟨h.2.2.1, h.2.2.2.2, h.2.1⟩, ⟨h2.2.2.1, h2.2.2.2.2, h2.2.1⟩⟩

/-- Witness of C4: on the page that starts with Salary and Rent, whose ids are
two clock readings, the click on the delete button of Salary leaves Rent. -/
theorem handleDeleteTransaction_removes_witness :
    (handleDeleteTransaction [] (deleteButton 1730000000000)
        (initialApp [salaryRecord 1730000000000, rentRecord 1730000000001])).transactions =
      [rentRecord 1730000000001] := by
  have h := (handleDeleteTransaction_removes [] 1730000000000
    (initialApp [salaryRecord 1730000000000, rentRecord 1730000000001])
    (by decide) (by decide!)).1
  rw [h]
  decide

end BudgetTracker
